import Mathlib

/-!
# Verification of the playlist manager's order-reconciliation engine

Shallow embedding of `src/playlist-manager.py` (single-file PyQt application).
The GUI layer is out of scope; the embedded part is the data model
(songs database, playlists database, staged-changes map), the filename
codec (`ORDER_PATTERN` / `extract_order_number`), the gap filler
(`find_next_available_order`), the staging operations of `OrderTab`
(`set_new_order`, `disable_selected_songs`), the series-balanced shuffle
(`randomize_playlist`) and the commit step (`apply_changes`), together
with the database helpers (`get_playlist_order`, `update_playlist_order`,
`load_folder_songs`, `remove_song_from_database`).

Python `dict`s become association lists with first-match update semantics,
file-system paths become (directory, basename) pairs, `random.shuffle` /
`random.randint` become oracle parameters, and the fallible file / tag
operations of `apply_changes` become boolean / three-valued oracles.
-/

set_option maxHeartbeats 2000000

namespace PlaylistManager

/-! ## Filename codec: the regex `^(\d{3})\s+(.+)$`

The source compiles `ORDER_PATTERN = re.compile(r'^(\d{3})\s+(.+)$')` and
uses `match.group(1)` (three digits) and `match.group(2)` (the rest).
We model Python's matching on lists of characters: `\d` as the ASCII
digits (all inputs of this program are ASCII file names), `\s` as ASCII
whitespace, `.` as any character except `'\n'`, and `$` as end-of-string
or the position before a single trailing `'\n'`.  The quantifiers
backtrack: `\s+` is greedy but gives characters back when `(.+)$` needs
them. -/

/-- ASCII whitespace, the characters matched by the regex class `\s`. -/
def isWsChar (c : Char) : Bool :=
  c = ' ' || c = '\t' || c = '\n' || c = '\x0d' || c = '\x0b' || c = '\x0c'

/-- ASCII digit, the characters matched by the regex class `\d`. -/
def isDigitChar (c : Char) : Bool :=
  48 ≤ c.toNat && c.toNat ≤ 57

/-- Matching of the regex tail `(.+)$` against a remainder `u`, returning
the text captured by the group.  `.` never matches `'\n'` and `$` accepts
the end of the string or the position before one final `'\n'`, so the
group is all of `u`, or `u` without a single trailing newline. -/
def dotPlusDollar (u : List Char) : Option (List Char) :=
  if '\n' ∈ u then
    match u.getLast? with
    | some c =>
      if c = '\n' then
        if u.dropLast ≠ [] ∧ '\n' ∉ u.dropLast then some u.dropLast else none
      else none
    | none => none
  else if u ≠ [] then some u else none

/-- Backtracking of the greedy `\s+`: starting from the longest whitespace
run of length `k`, give back one character at a time until `(.+)$`
matches what is left; `k = 0` means every split failed (in particular
`\s+` needs at least one character). -/
def findGroup2 (t : List Char) : Nat → Option (List Char × Nat)
  | 0 => none
  | k + 1 =>
    match dotPlusDollar (t.drop (k + 1)) with
    | some g => some (g, k + 1)
    | none => findGroup2 t k

/-- Length of the maximal whitespace run at the start of `t`, the first
split tried by the greedy `\s+`. -/
def wsRunLen (t : List Char) : Nat :=
  (t.takeWhile isWsChar).length

/-- `ORDER_PATTERN.match(s)`: three digits, whitespace, remainder.
Returns `(group 1, group 2)` on success. -/
def orderPatternMatch (s : List Char) : Option (List Char × List Char) :=
  match s with
  | d1 :: d2 :: d3 :: t =>
    if isDigitChar d1 && isDigitChar d2 && isDigitChar d3 then
      match findGroup2 t (wsRunLen t) with
      | some (g, _) => some ([d1, d2, d3], g)
      | none => none
    else none
  | _ => none

/-- Python's `int` on a string of decimal digits. -/
def digitsToNat (ds : List Char) : Nat :=
  ds.foldl (fun a c => 10 * a + (c.toNat - 48)) 0

/-- `extract_order_number(filename)`: the integer value of `group(1)` of
the pattern, or `0` when the pattern does not match. -/
def extract_order_number (filename : String) : Nat :=
  match orderPatternMatch filename.data with
  | some (ds, _) => digitsToNat ds
  | none => 0

/-- Decimal digit characters of `n`, most significant first (fuel-based so
that it reduces in the kernel; `decimalDigitsAux (n+1) n` always has
enough fuel). -/
def decimalDigitsAux : Nat → Nat → List Char
  | 0, _ => []
  | fuel + 1, n =>
    if n < 10 then [Char.ofNat (48 + n)]
    else decimalDigitsAux fuel (n / 10) ++ [Char.ofNat (48 + n % 10)]

/-- Decimal representation of a natural number as characters. -/
def decimalDigits (n : Nat) : List Char :=
  decimalDigitsAux (n + 1) n

/-- Left-pad a digit string with `'0'` to width `w`. -/
def padZeros (w : Nat) (ds : List Char) : List Char :=
  List.replicate (w - ds.length) '0' ++ ds

/-- Python's `f"{n:03d}"`: the decimal form of `n`, zero-padded to a total
width of three (sign included for negative numbers). -/
def format03 (n : Int) : List Char :=
  if n < 0 then '-' :: padZeros 2 (decimalDigits n.natAbs)
  else padZeros 3 (decimalDigits n.toNat)

/-- `f"{new_order:03d} {original_name}"`, the file-name formatting used by
`apply_changes`; this is the `OrderCodec.format` of the specification. -/
def formatOrderName (order : Int) (base : List Char) : List Char :=
  format03 order ++ ' ' :: base

/-! ## Data model

`songs.json` is a list of records `{id, name, path, series, weight}`;
`playlists.json` is a list of `{folder_path, orders: [{id, order}]}`.
The staged map `OrderTab.current_changes` is a Python dict
`{song_id: new_order}`, modelled as an insertion-ordered association
list with first-match update. -/

/-- A file-system path, split as (directory, basename); `os.path.dirname`
returns the first component and `os.path.join` builds the pair (no
basename of this program contains a path separator). -/
structure FPath where
  dir : String
  base : String
deriving DecidableEq

/-- A record of `songs.json`: `{id, name, path, series, weight}`. -/
structure SongRec where
  id : String
  name : String
  path : FPath
  series : String
  weight : Int
deriving DecidableEq

/-- An entry of `playlists.json`: `{folder_path, orders: [{id, order}]}`. -/
structure PlaylistEntry where
  folder_path : String
  orders : List (String × Int)
deriving DecidableEq

/-- The staged map `current_changes` (and any Python `str -> int` dict). -/
abbrev Changes := List (String × Int)

/-- Python `d.get(k)`. -/
def dget (m : Changes) (k : String) : Option Int :=
  (m.find? (fun p => decide (p.1 = k))).map (fun p => p.2)

/-- Python `d.get(k, dflt)`. -/
def dgetD (m : Changes) (k : String) (dflt : Int) : Int :=
  (dget m k).getD dflt

/-- Python `d[k] = v`: replace the value at the first occurrence of `k`,
or append a new binding. -/
def dset : Changes → String → Int → Changes
  | [], k, v => [(k, v)]
  | p :: rest, k, v => if p.1 = k then (k, v) :: rest else p :: dset rest k v

/-! ## Database helpers -/

/-- The order entries scanned by `get_playlist_order`: the concatenated
entry lists of every playlist whose `folder_path` matches, in order. -/
def ordersFlat (pls : List PlaylistEntry) (folder : String) : List (String × Int) :=
  (pls.filter (fun p => decide (p.folder_path = folder))).flatMap (fun p => p.orders)

/-- `get_playlist_order(folder_path, song_id)`: scan all playlists; inside
each playlist whose `folder_path` matches, scan the order entries and
return the first one for `song_id`; `0` when nothing matches (the scan
falls through to later playlists when one matches the folder but has no
entry for the song). -/
def get_playlist_order (pls : List PlaylistEntry) (folder id : String) : Int :=
  match (ordersFlat pls folder).find? (fun o => decide (o.1 = id)) with
  | some o => o.2
  | none => 0

/-- Update the first order entry for `id` in the list, or append one. -/
def updateOrderList : List (String × Int) → String → Int → List (String × Int)
  | [], id, v => [(id, v)]
  | o :: rest, id, v =>
    if o.1 = id then (o.1, v) :: rest else o :: updateOrderList rest id v

/-- `update_playlist_order(folder_path, song_id, new_order)`: update the
first playlist for the folder (creating one at the end if none exists),
setting the song's entry via first-match-or-append, and persist. -/
def update_playlist_order : List PlaylistEntry → String → String → Int →
    List PlaylistEntry
  | [], folder, id, v => [⟨folder, [(id, v)]⟩]
  | p :: rest, folder, id, v =>
    if p.folder_path = folder then
      ⟨p.folder_path, updateOrderList p.orders id v⟩ :: rest
    else p :: update_playlist_order rest folder id v

/-- `load_folder_songs(folder_path)`: the songs whose path's directory is
the folder, in database order, each paired with its order. The order comes
from the first playlist entry for the folder (`0` when the song has no
entry there); when the folder has no playlist entry at all, sequential
orders `1..` are assigned in database order. -/
def load_folder_songs (songs : List SongRec) (pls : List PlaylistEntry)
    (folder : String) : List (SongRec × Int) :=
  let fs := songs.filter (fun s => decide (s.path.dir = folder))
  match pls.find? (fun p => decide (p.folder_path = folder)) with
  | some pe =>
    fs.map (fun s =>
      (s, match pe.orders.find? (fun o => decide (o.1 = s.id)) with
          | some o => o.2
          | none => 0))
  | none => fs.enum.map (fun q => (q.2, (q.1 : Int) + 1))

/-- `remove_song_from_database(song_id, folder_path)`: drop every song
record carrying the id from `songs.json`; in `playlists.json`, drop the
id's order entries from the playlists of the given folder only. -/
def remove_song_from_database (songs : List SongRec) (pls : List PlaylistEntry)
    (songId folder : String) : List SongRec × List PlaylistEntry :=
  (songs.filter (fun s => decide (s.id ≠ songId)),
   pls.map (fun p =>
     if p.folder_path = folder then
       ⟨p.folder_path, p.orders.filter (fun o => decide (o.1 ≠ songId))⟩
     else p))

/-! ## Staging: `OrderTab.disable_selected_songs` and `OrderTab.set_new_order`

Both read the selected song ids from the table (rows of the current
folder's songs) and edit `current_changes` in place; we pass the selected
ids and the current staged map explicitly and return the new staged map. -/

/-- The renumbering loop of `disable_selected_songs`: walk the folder's
songs in database order; every song that is not selected is given the next
consecutive position, but an entry is written only when the position
differs from the song's stored order. -/
def disableLoop (selectedIds : List String) :
    List (SongRec × Int) → Changes → Int → Changes
  | [], c, _ => c
  | (s, ord) :: rest, c, pos =>
    if s.id ∈ selectedIds then disableLoop selectedIds rest c pos
    else
      disableLoop selectedIds rest
        (if pos ≠ ord then dset c s.id pos else c) (pos + 1)

/-- `disable_selected_songs`: mark each selected song as `-1` (DISABLED)
in the staged map, then renumber the other folder songs to `1..` in
database order. -/
def disable_selected_songs (songs : List SongRec) (pls : List PlaylistEntry)
    (folder : String) (selectedIds : List String) (changes : Changes) : Changes :=
  if selectedIds = [] then changes
  else
    let c1 := selectedIds.foldl (fun c sid => dset c sid (-1)) changes
    disableLoop selectedIds (load_folder_songs songs pls folder) c1 1

/-- `for sid in selected: changes[sid] = new_order; new_order += 1`. -/
def assignSelected : Changes → List String → Int → Changes
  | c, [], _ => c
  | c, sid :: rest, v => assignSelected (dset c sid v) rest (v + 1)

/-- The `while current_pos in [changes.get(sid) for sid in selected]`
skip loop of `set_new_order` (fuel-based; `selVals.length` steps always
suffice because the position strictly increases). -/
def skipPosAux (selVals : List (Option Int)) : Nat → Int → Int
  | 0, pos => pos
  | fuel + 1, pos =>
    if some pos ∈ selVals then skipPosAux selVals fuel (pos + 1) else pos

/-- Skip positions currently claimed by the selected songs. -/
def skipPos (selVals : List (Option Int)) (pos : Int) : Int :=
  skipPosAux selVals selVals.length pos

/-- The compaction loop of `set_new_order`: walk the folder's songs in
database order; songs that are neither selected nor staged-disabled get
the next position not claimed by a selected song, guarded by
`current_pos <= max_order`. -/
def setOrderLoop (selectedIds disabledIds : List String) (maxOrder : Int) :
    List (SongRec × Int) → Changes → Int → Changes
  | [], c, _ => c
  | (s, _) :: rest, c, pos =>
    if s.id ∉ selectedIds ∧ s.id ∉ disabledIds then
      let selVals := selectedIds.map (fun sid => dget c sid)
      let pos' := skipPos selVals pos
      if pos' ≤ maxOrder then
        setOrderLoop selectedIds disabledIds maxOrder rest (dset c s.id pos') (pos' + 1)
      else
        setOrderLoop selectedIds disabledIds maxOrder rest c pos'
    else setOrderLoop selectedIds disabledIds maxOrder rest c pos

/-- `set_new_order`: give the selected songs consecutive positions
starting at the spin-box value, preserve staged-disabled songs, and
compact the remaining folder songs (database order) into the positions
not claimed by the selection. -/
def set_new_order (songs : List SongRec) (pls : List PlaylistEntry)
    (folder : String) (selectedIds : List String) (newOrder : Int)
    (changes : Changes) : Changes :=
  if selectedIds = [] then changes
  else
    let folderSongs := load_folder_songs songs pls folder
    let disabledSongs := changes.filter
      (fun p => decide (p.2 = -1 ∧ p.1 ∉ selectedIds))
    let c1 := assignSelected changes selectedIds newOrder
    let c2 := setOrderLoop selectedIds (disabledSongs.map (fun p => p.1))
      (folderSongs.length : Int) folderSongs c1 1
    disabledSongs.foldl (fun c p => dset c p.1 p.2) c2

/-- The effective staged order of a folder song: the staged value when one
exists, otherwise the stored order (`current_changes.get(id, current)`,
as `apply_changes` computes it). -/
def effOrder (changes : Changes) (q : SongRec × Int) : Int :=
  dgetD changes q.1.id q.2

/-- The consecutive positions handed out by the compaction of
`set_new_order`, starting at `pos` and skipping the block
`[target, target + k)` claimed by the `k` selected songs: used to state
what the loop assigns. -/
def nextSlots (target : Int) (k : Nat) : Int → Nat → List Int
  | _, 0 => []
  | pos, cnt + 1 =>
    let pos' := if target ≤ pos ∧ pos < target + k then target + (k : Int) else pos
    pos' :: nextSlots target k (pos' + 1) cnt

/-- The scanning loop `for i in range(1, current_max_order + 2)`: `fuel`
iterations starting at `i`, falling back to `fallback` when the range is
exhausted. -/
def findOrderScan (used : List Nat) (fallback : Nat) : Nat → Nat → Nat
  | _, 0 => fallback
  | i, fuel + 1 => if i ∈ used then findOrderScan used fallback (i + 1) fuel else i

/-- The set of order numbers extracted from the file names of a folder's
songs (`used_numbers` in the source). -/
def usedNumbers (songs : List SongRec) (folder : String) : List Nat :=
  (songs.filter (fun s => decide (s.path.dir = folder))).map
    (fun s => extract_order_number s.name)

/-- `find_next_available_order(songs, folder_path, current_max_order)`. -/
def find_next_available_order (songs : List SongRec) (folder : String)
    (currentMax : Nat) : Nat :=
  findOrderScan (usedNumbers songs folder) (currentMax + 1) 1 (currentMax + 1)

/-- Concrete songs for the C5 statements: two files named `001 x.mp3` and
`002 y.mp3` in folder `f`, so the used order numbers are `{1, 2}`. -/
def c5Songs : List SongRec :=
  [⟨"ID0000", "001 x.mp3", ⟨"f", "001 x.mp3"⟩, "", 2⟩,
   ⟨"ID0001", "002 y.mp3", ⟨"f", "002 y.mp3"⟩, "", 2⟩]

/-- Songs that `disable_selected_songs`'s renumbering loop assigns
positions to: the folder songs that are not selected. -/
def notSelected (selectedIds : List String) (fs : List (SongRec × Int)) :
    List (SongRec × Int) :=
  fs.filter (fun q => decide (q.1.id ∉ selectedIds))

/-- Songs that `set_new_order`'s compaction loop assigns positions to:
the folder songs that are neither selected nor staged-disabled. -/
def othersSO (selectedIds disabledIds : List String)
    (fs : List (SongRec × Int)) : List (SongRec × Int) :=
  fs.filter (fun q => decide (q.1.id ∉ selectedIds ∧ q.1.id ∉ disabledIds))

/-! ## Commit: `OrderTab.apply_changes`

`apply_changes` walks the whole songs database; for each song whose
path's directory is the current folder it computes the effective new
order (`current_changes.get(id, current_order)`); a song whose effective
order is the `DISABLED` sentinel `-1` is moved into the `Disabled`
subfolder (in-place mode) or skipped entirely (copy mode); an enabled
song is renamed / copied to `f"{new_order:03d} {original_name}"`, its
title tag rewritten, and its order entry persisted via
`update_playlist_order` (which saves `playlists.json` on every call).
The songs database is saved once, **after** the loop; the staged map is
cleared only on success; any exception aborts the loop.

The fallible operations become oracles: `ioFail id` says whether the
rename/move/copy for the song with that id raises (`os.rename`,
`shutil.move`, `shutil.copy2`); `tagRes id` says how the title-tag
rewrite for that song goes (`ok`, `ID3NoHeaderError` — recovered by
creating a fresh tag — or any other exception on `audio.save()`). -/

/-- The `Disabled` subdirectory of a folder
(`os.path.join(current_dir, "Disabled")`). -/
def disabledDirOf (folder : String) : String := folder ++ "/Disabled"

/-- Outcome of the title-tag rewrite of one song. -/
inductive TagRes
  | ok
  | noHeader
  | saveError
deriving DecidableEq

/-- Errors that abort an `apply_changes` run (Python exceptions). -/
inductive ApplyErr
  | ioErr (id : String)
  | tagErr (id : String)
  | idExhausted
deriving DecidableEq

/-- File-system actions performed by `apply_changes`, tagged with the id
of the song they were performed for. -/
inductive FsAction
  | rename (id : String) (old new : FPath)
  | move (id : String) (old new : FPath)
  | copy (srcId : String) (src dst : FPath)
deriving DecidableEq

/-- The id of the (source) song an action was performed for. -/
def actionSrc : FsAction → String
  | FsAction.rename id _ _ => id
  | FsAction.move id _ _ => id
  | FsAction.copy srcId _ _ => srcId

/-- Result of an `apply_changes` run: the persisted songs database, the
persisted playlists database, the staged map after the run, the performed
file-system actions in order, and the aborting error if any. -/
structure ApplyResult where
  songsDb : List SongRec
  pls : List PlaylistEntry
  changes : Changes
  actions : List FsAction
  err : Option ApplyErr
deriving DecidableEq

/-- `group(2)` of the filename pattern, or the whole filename when the
pattern does not match (`original_name` in `apply_changes`). -/
def originalNameOf (filename : String) : String :=
  match orderPatternMatch filename.data with
  | some (_, g) => String.mk g
  | none => filename

/-- The in-place (`Modify Current Directory`) loop of `apply_changes`
over the remaining songs, returning the mutated in-memory songs list, the
persisted playlists, the performed actions and the error if one was
raised. -/
def inplaceLoop (ioFail : String → Bool) (tagRes : String → TagRes)
    (folder : String) (changes : Changes) :
    List SongRec → List PlaylistEntry → List FsAction →
    (List SongRec × List PlaylistEntry × List FsAction × Option ApplyErr)
  | [], pls, acts => ([], pls, acts, none)
  | s :: rest, pls, acts =>
    if s.path.dir = folder then
      let currentOrder := get_playlist_order pls folder s.id
      let newOrder := dgetD changes s.id currentOrder
      if newOrder = -1 ∨ (dget changes s.id = none ∧ currentOrder = -1) then
        if ioFail s.id then ([], pls, acts, some (ApplyErr.ioErr s.id))
        else
          let newPath : FPath := ⟨disabledDirOf folder, s.path.base⟩
          let acts' := acts ++ [FsAction.move s.id s.path newPath]
          match inplaceLoop ioFail tagRes folder changes rest pls acts' with
          | (rest', pls', acts'', e) => ({ s with path := newPath } :: rest', pls', acts'', e)
      else
        if ioFail s.id then ([], pls, acts, some (ApplyErr.ioErr s.id))
        else
          let newFilename := String.mk
            (formatOrderName newOrder (originalNameOf s.path.base).data)
          let newPath : FPath := ⟨folder, newFilename⟩
          let acts' := acts ++ [FsAction.rename s.id s.path newPath]
          if tagRes s.id = TagRes.saveError then
            ([], pls, acts', some (ApplyErr.tagErr s.id))
          else
            let pls' := update_playlist_order pls folder s.id newOrder
            match inplaceLoop ioFail tagRes folder changes rest pls' acts' with
            | (rest', pls'', acts'', e) =>
              ({ s with path := newPath, name := newFilename } :: rest', pls'', acts'', e)
    else
      match inplaceLoop ioFail tagRes folder changes rest pls acts with
      | (rest', pls', acts', e) => (s :: rest', pls', acts', e)

/-- `apply_changes` with "Modify Current Directory".  Nothing happens on
an empty staged map (`if not self.current_changes: return`).  On success
the mutated songs list is saved and the staged map cleared; on an error
the songs database keeps its pre-run contents (it is saved only after the
loop), the playlist updates persisted so far stand, and the staged map is
left untouched (it is cleared only on success). -/
def apply_changes_inplace (ioFail : String → Bool) (tagRes : String → TagRes)
    (songs : List SongRec) (pls : List PlaylistEntry) (folder : String)
    (changes : Changes) : ApplyResult :=
  if changes = [] then ⟨songs, pls, changes, [], none⟩
  else
    match inplaceLoop ioFail tagRes folder changes songs pls [] with
    | (songs', pls', acts, none) => ⟨songs', pls', [], acts, none⟩
    | (_, pls', acts, some e) => ⟨songs, pls', changes, acts, some e⟩

/-- `f"{ID_PREFIX}{i:04d}"`. -/
def idString (i : Nat) : String :=
  String.mk ('I' :: 'D' :: padZeros 4 (decimalDigits i))

/-- `for i in range(10000)` of `generate_song_id`, as a counting scan:
`fuel` iterations remain, `i` is the current counter value. -/
def genIdScan (used : List String) : Nat → Nat → Option String
  | 0, _ => none
  | fuel + 1, i =>
    if idString i ∈ used then genIdScan used fuel (i + 1) else some (idString i)

/-- The fresh-id scan of the copy branch: the first of `ID0000..ID9999`
not among `used`; `none` models `ValueError("No available IDs left.")`. -/
def generateNewId (used : List String) : Option String :=
  genIdScan used 10000 0

/-- The copy (`Copy to New Directory`) loop of `apply_changes`: songs of
the current folder whose effective order is `DISABLED` are skipped
entirely (`continue`); an enabled song is copied to the target directory
under its new name, a fresh id is minted (excluding both existing and
newly created songs), a new record is accumulated, tags are written
(`add_id_to_metadata` recovers all its errors internally; the title
rewrite can abort), and the target directory's order entry is persisted. -/
def copyLoop (ioFail : String → Bool) (tagRes : String → TagRes)
    (folder targetDir : String) (changes : Changes) (songs : List SongRec) :
    List SongRec → List SongRec → List PlaylistEntry → List FsAction →
    (List SongRec × List PlaylistEntry × List FsAction × Option ApplyErr)
  | [], newSongs, pls, acts => (newSongs, pls, acts, none)
  | s :: rest, newSongs, pls, acts =>
    if s.path.dir = folder then
      let currentOrder := get_playlist_order pls folder s.id
      let newOrder := dgetD changes s.id currentOrder
      if newOrder = -1 ∨ (dget changes s.id = none ∧ currentOrder = -1) then
        copyLoop ioFail tagRes folder targetDir changes songs rest newSongs pls acts
      else
        if ioFail s.id then (newSongs, pls, acts, some (ApplyErr.ioErr s.id))
        else
          let newFilename := String.mk
            (formatOrderName newOrder (originalNameOf s.path.base).data)
          let newPath : FPath := ⟨targetDir, newFilename⟩
          let acts' := acts ++ [FsAction.copy s.id s.path newPath]
          match generateNewId (songs.map (fun t => t.id) ++
              newSongs.map (fun t => t.id)) with
          | none => (newSongs, pls, acts', some ApplyErr.idExhausted)
          | some newId =>
            let newSong : SongRec := ⟨newId, newFilename, newPath, s.series, s.weight⟩
            if tagRes s.id = TagRes.saveError then
              (newSongs ++ [newSong], pls, acts', some (ApplyErr.tagErr s.id))
            else
              let pls' := update_playlist_order pls targetDir newId newOrder
              copyLoop ioFail tagRes folder targetDir changes songs rest
                (newSongs ++ [newSong]) pls' acts'
    else
      copyLoop ioFail tagRes folder targetDir changes songs rest newSongs pls acts

/-- `apply_changes` with "Copy to New Directory". -/
def apply_changes_copy (ioFail : String → Bool) (tagRes : String → TagRes)
    (songs : List SongRec) (pls : List PlaylistEntry)
    (folder targetDir : String) (changes : Changes) : ApplyResult :=
  if changes = [] then ⟨songs, pls, changes, [], none⟩
  else
    match copyLoop ioFail tagRes folder targetDir changes songs songs [] pls [] with
    | (newSongs, pls', acts, none) => ⟨songs ++ newSongs, pls', [], acts, none⟩
    | (_, pls', acts, some e) => ⟨songs, pls', changes, acts, some e⟩

/-- Songs of the database whose path's directory is the folder. -/
def folderSongsOf (songs : List SongRec) (folder : String) : List SongRec :=
  songs.filter (fun s => decide (s.path.dir = folder))

/-- The effective staged order of a database song, as `apply_changes`
computes it: the staged value, or the stored order when unstaged. -/
def effOrderAt (pls : List PlaylistEntry) (folder : String) (changes : Changes)
    (s : SongRec) : Int :=
  dgetD changes s.id (get_playlist_order pls folder s.id)

/-- All order entries carrying a given song id, with their folders, in
database order: the view used to state that apply leaves a song's order
entries alone. -/
def entriesForId (pls : List PlaylistEntry) (id : String) : List (String × Int) :=
  pls.flatMap (fun p =>
    (p.orders.filter (fun o => decide (o.1 = id))).map (fun o => (p.folder_path, o.2)))

/-- The always-succeeding file-operation oracle. -/
def ioOk : String → Bool := fun _ => false

/-- The always-succeeding tag oracle. -/
def tagOk : String → TagRes := fun _ => TagRes.ok

/-! ## Claim-side (specification-worded) definitions

The following definitions are *modelled from the claims' words*, not from
the source; they exist only to state what claims C6 and C7 assert so that
counterexamples can refute them.  Both claims say the non-selected songs
are renumbered "in their existing order-relative order", i.e. sorted by
their current order value. -/

/-- Sort folder songs by their current order value (claim wording
"existing order-relative order"). -/
def sortByOrder (l : List (SongRec × Int)) : List (SongRec × Int) :=
  List.insertionSort (fun a b => a.2 ≤ b.2) l

/-- Position (0-based) of `id` in a list of ids. -/
def idIndex (ids : List String) (id : String) : Nat :=
  ids.findIdx (fun sid => decide (sid = id))

/-- The non-selected folder songs in ascending current-order order, as
both claims' "remaining enabled songs in their existing order-relative
order". -/
def remainingByOrder (songs : List SongRec) (pls : List PlaylistEntry)
    (folder : String) (selectedIds : List String) : List (SongRec × Int) :=
  sortByOrder ((load_folder_songs songs pls folder).filter
    (fun q => decide (q.1.id ∉ selectedIds)))

/-- Claim C7 as stated, at one input: after `stage_disable(selected)`,
every selected song is staged `DISABLED` and the remaining enabled songs
are renumbered to `1..remaining_count` *preserving their existing
order-relative order*. -/
def claimC7Holds (songs : List SongRec) (pls : List PlaylistEntry)
    (folder : String) (selectedIds : List String) (changes : Changes) : Prop :=
  ∀ q ∈ load_folder_songs songs pls folder,
    effOrder (disable_selected_songs songs pls folder selectedIds changes) q =
      if q.1.id ∈ selectedIds then -1
      else (idIndex ((remainingByOrder songs pls folder selectedIds).map
        (fun r => r.1.id)) q.1.id : Int) + 1

/-- Claim C6 as stated, at one input: after
`stage_manual_reorder(selected, target)`, the selected songs take
consecutive positions from `target` and all other enabled songs are
compacted into the remaining slots *in their existing order-relative
order*, skipping the claimed positions. -/
def claimC6Holds (songs : List SongRec) (pls : List PlaylistEntry)
    (folder : String) (selectedIds : List String) (target : Int)
    (changes : Changes) : Prop :=
  ∀ q ∈ load_folder_songs songs pls folder,
    effOrder (set_new_order songs pls folder selectedIds target changes) q =
      if q.1.id ∈ selectedIds then
        target + (idIndex selectedIds q.1.id : Int)
      else
        ((nextSlots target selectedIds.length 1
            (remainingByOrder songs pls folder selectedIds).length).zip
          ((remainingByOrder songs pls folder selectedIds).map
            (fun r => r.1.id))).foldl
          (fun acc sp => if sp.2 = q.1.id then sp.1 else acc) 0

/-! ## Concrete states used by counterexamples and witnesses -/

/-- Folder path used by all concrete examples. -/
def exFolder : String := "/music/pl"

/-- Clean three-song state: database order agrees with playlist order. -/
def songsABC : List SongRec :=
  [⟨"ID0000", "001 A.mp3", ⟨"/music/pl", "001 A.mp3"⟩, "X", 2⟩,
   ⟨"ID0001", "002 B.mp3", ⟨"/music/pl", "002 B.mp3"⟩, "X", 2⟩,
   ⟨"ID0002", "003 C.mp3", ⟨"/music/pl", "003 C.mp3"⟩, "Y", 2⟩]

/-- Playlist entry for the clean state: A:1, B:2, C:3. -/
def plsABC : List PlaylistEntry :=
  [⟨"/music/pl", [("ID0000", 1), ("ID0001", 2), ("ID0002", 3)]⟩]

/-- Scrambled state: a reachable state (reorder B to the front and apply,
keeping database order) in which database order A, B, C carries playlist
orders 2, 1, 3. -/
def songsScr : List SongRec :=
  [⟨"ID0000", "002 A.mp3", ⟨"/music/pl", "002 A.mp3"⟩, "X", 2⟩,
   ⟨"ID0001", "001 B.mp3", ⟨"/music/pl", "001 B.mp3"⟩, "X", 2⟩,
   ⟨"ID0002", "003 C.mp3", ⟨"/music/pl", "003 C.mp3"⟩, "Y", 2⟩]

/-- Playlist entry for the scrambled state: A:2, B:1, C:3. -/
def plsScr : List PlaylistEntry :=
  [⟨"/music/pl", [("ID0000", 2), ("ID0001", 1), ("ID0002", 3)]⟩]

/-- Five enabled songs ordered 1..5 (claim C6's concrete scenario). -/
def songs5 : List SongRec :=
  [⟨"ID0000", "001 S1.mp3", ⟨"/music/pl", "001 S1.mp3"⟩, "X", 2⟩,
   ⟨"ID0001", "002 S2.mp3", ⟨"/music/pl", "002 S2.mp3"⟩, "X", 2⟩,
   ⟨"ID0002", "003 S3.mp3", ⟨"/music/pl", "003 S3.mp3"⟩, "Y", 2⟩,
   ⟨"ID0003", "004 S4.mp3", ⟨"/music/pl", "004 S4.mp3"⟩, "Y", 2⟩,
   ⟨"ID0004", "005 S5.mp3", ⟨"/music/pl", "005 S5.mp3"⟩, "Z", 2⟩]

/-- Playlist entry for the five-song state: orders 1..5. -/
def pls5 : List PlaylistEntry :=
  [⟨"/music/pl", [("ID0000", 1), ("ID0001", 2), ("ID0002", 3),
    ("ID0003", 4), ("ID0004", 5)]⟩]

/-- Two-song clean state for the failure-path claims. -/
def songsAB : List SongRec :=
  [⟨"ID0000", "001 A.mp3", ⟨"/music/pl", "001 A.mp3"⟩, "X", 2⟩,
   ⟨"ID0001", "002 B.mp3", ⟨"/music/pl", "002 B.mp3"⟩, "X", 2⟩]

/-- Playlist entry for the two-song state: A:1, B:2. -/
def plsAB : List PlaylistEntry :=
  [⟨"/music/pl", [("ID0000", 1), ("ID0001", 2)]⟩]

/-- Staged map for the claim C7 concrete scenario: disable B in the clean
three-song state (effectively A:1, B:DISABLED, C:2). -/
def c7Changes : Changes :=
  disable_selected_songs songsABC plsABC exFolder ["ID0001"] []

/-- Staged map for the claim C1 counterexample: disable C, then set A to
position 3; both steps are ordinary UI staging actions. -/
def c1CxChanges : Changes :=
  set_new_order songsABC plsABC exFolder ["ID0000"] 3
    (disable_selected_songs songsABC plsABC exFolder ["ID0002"] [])

/-- Staged map moving B to the front of the two-song state (B:1, A:2). -/
def abChanges : Changes :=
  set_new_order songsAB plsAB exFolder ["ID0001"] 1 []

/-- A file-operation oracle failing exactly for the given song id. -/
def ioFailOn (badId : String) : String → Bool :=
  fun id => decide (id = badId)

/-- A tag oracle whose title-tag save fails exactly for the given id. -/
def tagSaveErrOn (badId : String) : String → TagRes :=
  fun id => if id = badId then TagRes.saveError else TagRes.ok

/-- A tag oracle hitting `ID3NoHeaderError` (recovered) for the given id. -/
def tagNoHeaderOn (theId : String) : String → TagRes :=
  fun id => if id = theId then TagRes.noHeader else TagRes.ok

/-! ## `randomize_playlist` (the Shuffler)

The two calls to `random.shuffle` become oracle parameters `shG` (the
per-series in-place shuffle) and `shR` (the shuffle of the remaining
songs); `random.randint(-2, 2)` becomes the oracle `shift`.  Board
positions are `Int` (the source computes `target + offset * radius`,
which may leave `range(total_songs)` in either direction).  The `result`
list of the source, pre-allocated with `None`, is a
`List (Option SongRec)`. -/

/-- `series_dict[song['series']].append(song)` on one song: extend the
song's series group, or open a new group at the end (`defaultdict`
insertion order). -/
def addToGroups (groups : List (String × List SongRec)) (s : SongRec) :
    List (String × List SongRec) :=
  match groups with
  | [] => [(s.series, [s])]
  | (ser, l) :: rest =>
    if ser = s.series then (ser, l ++ [s]) :: rest
    else (ser, l) :: addToGroups rest s

/-- The grouping loop: groups keyed by series in first-appearance order,
each group holding its songs in input order. -/
def groupBySeries (songs : List SongRec) : List (String × List SongRec) :=
  songs.foldl addToGroups []

/-- `max(0, min(total_songs - 1, x))`. -/
def clampPoint (n : Nat) (x : Int) : Int :=
  max 0 (min ((n : Int) - 1) x)

/-- The distribution points of one series: `int((i * total) / size)`
plus the random shift, clamped into the board. -/
def distPoints (shift : String → Nat → Int) (n : Nat) (ser : String)
    (size : Nat) : List Int :=
  (List.range size).map (fun i => clampPoint n ((i * n / size : Nat) + shift ser i))

/-- `result[pos]` for an `Int` position: `none` when out of range. -/
def optAt (result : List (Option SongRec)) (pos : Int) : Option SongRec :=
  if 0 ≤ pos then (result.getD pos.toNat none) else none

/-- `pos in used_positions`: the source's `used_positions` set always
holds exactly the filled positions of `result`. -/
def posUsed (result : List (Option SongRec)) (pos : Int) : Bool :=
  (optAt result pos).isSome

/-- One neighbour of the `for adj in [pos-1, pos+1]` check is clear. -/
def adjClearAt (result : List (Option SongRec)) (adj : Int) (ser : String) : Bool :=
  match optAt result adj with
  | none => true
  | some t => decide (t.series ≠ ser)

/-- `adjacent_clear`: neither neighbour holds a song of the same series. -/
def adjacentClear (result : List (Option SongRec)) (pos : Int) (ser : String) : Bool :=
  adjClearAt result (pos - 1) ser && adjClearAt result (pos + 1) ser

/-- `result[pos] = song` (position already checked to be in range). -/
def setAt (result : List (Option SongRec)) (pos : Nat) (s : SongRec) :
    List (Option SongRec) :=
  result.set pos (some s)

/-- The filled entries of the board, in board order (the source's final
`[song for song in result if song is not None]`). -/
def somes (result : List (Option SongRec)) : List SongRec :=
  result.filterMap id

/-- One offset attempt of the first pass: place `s` at `pos` if `pos` is
on the board, unused, and adjacent-clear. -/
def tryAt (result : List (Option SongRec)) (n : Nat) (pos : Int) (s : SongRec) :
    Option (List (Option SongRec)) :=
  if 0 ≤ pos ∧ pos < (n : Int) ∧ posUsed result pos = false then
    if adjacentClear result pos s.series then some (setAt result pos.toNat s)
    else none
  else none

/-- The `for offset in [0, 1, -1]` loop at one radius.  Besides the
updated board it returns the final value of the loop variable `pos`,
which the source reads *after* the loop (`if pos in used_positions`). -/
def tryOffsets (result : List (Option SongRec)) (n : Nat) (target : Int)
    (radius : Nat) (s : SongRec) : List (Option SongRec) × Int :=
  match tryAt result n target s with
  | some r => (r, target)
  | none =>
    match tryAt result n (target + radius) s with
    | some r => (r, target + radius)
    | none =>
      match tryAt result n (target - radius) s with
      | some r => (r, target - radius)
      | none => (result, target - radius)

/-- The `while search_radius < total_songs` loop, faithfully keeping the
source's exit test `if pos in used_positions: break` on the leaked loop
variable (so the loop also stops, without placing, when `target - radius`
happens to be occupied by some other song). -/
def radiusLoop (n : Nat) (s : SongRec) (target : Int) :
    Nat → Nat → List (Option SongRec) → List (Option SongRec)
  | 0, _, result => result
  | fuel + 1, radius, result =>
    if radius < n then
      if posUsed (tryOffsets result n target radius s).1
          (tryOffsets result n target radius s).2 then
        (tryOffsets result n target radius s).1
      else radiusLoop n s target fuel (radius + 1)
        (tryOffsets result n target radius s).1
    else result

/-- First-pass placement of one series: walk the (shuffled) group songs
paired with the series' distribution points. -/
def placeGroup (n : Nat) : List SongRec → List Int → List (Option SongRec) →
    List (Option SongRec)
  | [], _, result => result
  | _ :: _, [], result => result
  | s :: rest, t :: ts, result =>
    placeGroup n rest ts (radiusLoop n s t (n + 1) 0 result)

/-- The whole first pass over all series groups, starting from the
`[None] * total_songs` board. -/
def pass1 (shG : String → List SongRec → List SongRec)
    (shift : String → Nat → Int) (n : Nat)
    (groups : List (String × List SongRec)) : List (Option SongRec) :=
  groups.foldl
    (fun result g =>
      placeGroup n (shG g.1 g.2) (distPoints shift n g.1 g.2.length) result)
    (List.replicate n none)

/-- `remaining_songs`: for each series, the (shuffled) group songs not
equal to any entry of `result` — the source's `song not in result`
compares by value. -/
def remainingOf (shG : String → List SongRec → List SongRec)
    (groups : List (String × List SongRec))
    (result : List (Option SongRec)) : List SongRec :=
  groups.flatMap
    (fun g => (shG g.1 g.2).filter (fun s => decide (some s ∉ result)))

/-- The inner `for j, song in enumerate(remaining_songs)` of the gap
fill: pop the first remaining song that is adjacent-clear at `i`. -/
def findClear (result : List (Option SongRec)) (i : Int) :
    List SongRec → Option (SongRec × List SongRec)
  | [] => none
  | s :: rest =>
    if adjacentClear result i s.series then some (s, rest)
    else
      match findClear result i rest with
      | none => none
      | some (t, rest') => some (t, s :: rest')

/-- Second pass (`Fill gaps`): walk every position; at an empty one, if
songs remain, place the first adjacent-clear remaining song. -/
def pass2Go : List Nat → List (Option SongRec) → List SongRec →
    List (Option SongRec) × List SongRec
  | [], result, rem => (result, rem)
  | i :: is, result, rem =>
    if (result.getD i none).isNone ∧ rem ≠ [] then
      match findClear result (i : Int) rem with
      | none => pass2Go is result rem
      | some (s, rem') => pass2Go is (setAt result i s) rem'
    else pass2Go is result rem

/-- Final pass: fill every still-empty position with the next remaining
song, adjacency no longer checked. -/
def pass3Go : List Nat → List (Option SongRec) → List SongRec →
    List (Option SongRec) × List SongRec
  | [], result, rem => (result, rem)
  | i :: is, result, rem =>
    match rem with
    | [] => pass3Go is result []
    | s :: rem' =>
      if (result.getD i none).isNone then pass3Go is (setAt result i s) rem'
      else pass3Go is result (s :: rem')

/-- `OrderTab.randomize_playlist`, with the shuffles and the random
shift as oracles. -/
def randomize_playlist (shG : String → List SongRec → List SongRec)
    (shR : List SongRec → List SongRec) (shift : String → Nat → Int)
    (songs : List SongRec) : List SongRec :=
  let n := songs.length
  let groups := groupBySeries songs
  let result1 := pass1 shG shift n groups
  let rem := shR (remainingOf shG groups result1)
  let p2 := pass2Go (List.range n) result1 rem
  let p3 := pass3Go (List.range n) p2.1 p2.2
  somes p3.1

/-- The identity per-series shuffle oracle. -/
def shGid : String → List SongRec → List SongRec := fun _ l => l

/-- The identity remaining-songs shuffle oracle. -/
def shRid : List SongRec → List SongRec := fun l => l

/-- The zero shift oracle (`random.randint(-2, 2)` returning 0). -/
def shiftZero : String → Nat → Int := fun _ _ => 0

/-- A songs list holding the same record twice (as when `songs.json`
carries a duplicated entry). -/
def dupSongs : List SongRec :=
  [⟨"ID0000", "001 A.mp3", ⟨"/music/pl", "001 A.mp3"⟩, "X", 2⟩,
   ⟨"ID0000", "001 A.mp3", ⟨"/music/pl", "001 A.mp3"⟩, "X", 2⟩]

/-! # Theorems -/

/-! ## Dictionary lemmas -/

theorem dget_dset_self (c : Changes) (k : String) (v : Int) :
    dget (dset c k v) k = some v := by
  induction c with
  | nil => simp [dget, dset, List.find?]
  | cons p rest ih =>
    by_cases h : p.1 = k
    · simp [dset, h, dget, List.find?]
    · simp only [dset, if_neg h]
      simpa [dget, List.find?, h] using ih

theorem dget_dset_ne (c : Changes) (k k' : String) (v : Int) (h : k' ≠ k) :
    dget (dset c k v) k' = dget c k' := by
  induction c with
  | nil => simp [dget, dset, List.find?, Ne.symm h]
  | cons p rest ih =>
    by_cases hp : p.1 = k
    · subst hp
      simp [dset, dget, List.find?, Ne.symm h, h]
    · simp only [dset, if_neg hp]
      by_cases hp' : p.1 = k'
      · simp [dget, List.find?, hp']
      · simpa [dget, List.find?, hp'] using ih

/-- Folding `dset` of bindings whose keys avoid `id` leaves `id` alone. -/
theorem dget_foldl_dset_of_not_mem (l : List (String × Int)) (c : Changes)
    (id : String) (h : id ∉ l.map (fun p => p.1)) :
    dget (l.foldl (fun c q => dset c q.1 q.2) c) id = dget c id := by
  induction l generalizing c with
  | nil => rfl
  | cons p rest ih =>
    simp only [List.map_cons, List.mem_cons, not_or] at h
    simp only [List.foldl_cons]
    rw [ih _ h.2, dget_dset_ne _ _ _ _ h.1]

/-- Folding `dset` over bindings with pairwise-distinct keys realises each
binding. -/
theorem dget_foldl_dset_self (l : List (String × Int)) (c : Changes)
    (hnd : (l.map (fun p => p.1)).Nodup) :
    ∀ p ∈ l, dget (l.foldl (fun c q => dset c q.1 q.2) c) p.1 = some p.2 := by
  induction l generalizing c with
  | nil => intro p hp; cases hp
  | cons q rest ih =>
    intro p hp
    simp only [List.map_cons, List.nodup_cons] at hnd
    rcases List.mem_cons.mp hp with h | h
    · subst h
      simp only [List.foldl_cons]
      rw [dget_foldl_dset_of_not_mem _ _ _ hnd.1, dget_dset_self]
    · simp only [List.foldl_cons]
      exact ih _ hnd.2 p h

/-- Folding constant `-1` bindings leaves other ids alone. -/
theorem dget_foldl_dset_neg_one_not_mem (ids : List String) (c : Changes)
    (sid : String) (h : sid ∉ ids) :
    dget (ids.foldl (fun c i => dset c i (-1)) c) sid = dget c sid := by
  induction ids generalizing c with
  | nil => rfl
  | cons i rest ih =>
    simp only [List.mem_cons, not_or] at h
    simp only [List.foldl_cons]
    rw [ih _ h.2, dget_dset_ne _ _ _ _ h.1]

/-- `foldl dset` of constant value `-1` over a plain id list, as
`disable_selected_songs` does for the selection: members map to `-1`. -/
theorem dget_foldl_dset_neg_one (ids : List String) (c : Changes) (sid : String)
    (h : sid ∈ ids) :
    dget (ids.foldl (fun c i => dset c i (-1)) c) sid = some (-1) := by
  induction ids generalizing c with
  | nil => cases h
  | cons i rest ih =>
    simp only [List.foldl_cons]
    by_cases hm : sid ∈ rest
    · exact ih _ hm
    · rcases List.mem_cons.mp h with h' | h'
      · subst h'
        rw [dget_foldl_dset_neg_one_not_mem _ _ _ hm, dget_dset_self]
      · exact absurd h' hm

/-! ## Claim C10: `remove_song_from_database` frame conditions -/

/-- C10, confirmed.  `remove_song_from_database(song_id, folder_path)`
(a) leaves no record with the id in the song collection, (b) keeps every
other record, (c) keeps every playlist, (d) keeps playlists of other
folders untouched — so an order entry with the removed id under another
folder survives and, by (a), its id no longer resolves to a record — and
(e) in playlists of the given folder keeps exactly the entries with other
ids. -/
theorem claim_C10_remove_song (songs : List SongRec) (pls : List PlaylistEntry)
    (songId folder : String) :
    (∀ s ∈ (remove_song_from_database songs pls songId folder).1, s.id ≠ songId) ∧
    (∀ s ∈ songs, s.id ≠ songId →
      s ∈ (remove_song_from_database songs pls songId folder).1) ∧
    (remove_song_from_database songs pls songId folder).2.length = pls.length ∧
    (∀ i pe, pls.get? i = some pe → pe.folder_path ≠ folder →
      (remove_song_from_database songs pls songId folder).2.get? i = some pe) ∧
    (∀ i pe pe', pls.get? i = some pe →
      (remove_song_from_database songs pls songId folder).2.get? i = some pe' →
      pe.folder_path = folder →
      ∀ o, o ∈ pe'.orders ↔ (o ∈ pe.orders ∧ o.1 ≠ songId)) := by
  refine ⟨?_, ?_, ?_, ?_, ?_⟩
  · intro s hs
    simp only [remove_song_from_database, List.mem_filter, decide_eq_true_eq] at hs
    exact hs.2
  · intro s hs h
    simp only [remove_song_from_database, List.mem_filter, decide_eq_true_eq]
    exact ⟨hs, h⟩
  · simp [remove_song_from_database]
  · intro i pe hget hne
    simp only [remove_song_from_database, List.get?_map, hget, Option.map_some']
    rw [if_neg hne]
  · intro i pe pe' hget hget' heq o
    simp only [remove_song_from_database, List.get?_map, hget, Option.map_some'] at hget'
    rw [if_pos heq] at hget'
    have hpe' : pe' = ⟨pe.folder_path, pe.orders.filter (fun o => decide (o.1 ≠ songId))⟩ :=
      (Option.some.inj hget').symm
    subst hpe'
    simp [List.mem_filter]

/-- Two-folder database for the C10 witness: the same id has order entries
under `f1` and `f2`. -/
def w10Pls : List PlaylistEntry :=
  [⟨"f1", [("ID0000", 1)]⟩, ⟨"f2", [("ID0000", 5)]⟩]

/-- Songs for the C10 witness. -/
def w10Songs : List SongRec :=
  [⟨"ID0000", "001 x.mp3", ⟨"f1", "001 x.mp3"⟩, "", 2⟩]

/-- Witness for C10 at a concrete two-folder state: no record with the id
remains, while the other folder's playlist — entry for the removed id
included — is untouched (it has become an orphan entry). -/
theorem claim_C10_remove_song_witness :
    (∀ s ∈ (remove_song_from_database w10Songs w10Pls "ID0000" "f1").1,
      s.id ≠ "ID0000") ∧
    (remove_song_from_database w10Songs w10Pls "ID0000" "f1").2.get? 1 =
      some ⟨"f2", [("ID0000", 5)]⟩ :=
  ⟨(claim_C10_remove_song w10Songs w10Pls "ID0000" "f1").1,
    (claim_C10_remove_song w10Songs w10Pls "ID0000" "f1").2.2.2.1 1
      ⟨"f2", [("ID0000", 5)]⟩ (by decide) (by decide)⟩

/-! ## Claims C6 and C7: staging characterisations

Both staging operations renumber the non-selected folder songs by walking
them in *database* order; the claims say "in their existing order-relative
order".  The two agree only when the database lists the folder's songs in
ascending current order (as in the claims' concrete scenarios). -/

/-- The renumbering loop leaves ids outside its walk unchanged. -/
theorem disableLoop_not_mem (selectedIds : List String) :
    ∀ (fs : List (SongRec × Int)) (c : Changes) (pos : Int) (id : String),
      id ∉ (notSelected selectedIds fs).map (fun q => q.1.id) →
      dget (disableLoop selectedIds fs c pos) id = dget c id := by
  intro fs
  induction fs with
  | nil => intro c pos id _; rfl
  | cons q rest ih =>
    intro c pos id hmem
    obtain ⟨s, ord⟩ := q
    by_cases hs : s.id ∈ selectedIds
    · have hns : notSelected selectedIds ((s, ord) :: rest) =
          notSelected selectedIds rest := by
        simp [notSelected, List.filter_cons, hs]
      rw [hns] at hmem
      simp only [disableLoop, if_pos hs]
      exact ih c pos id hmem
    · have hns : notSelected selectedIds ((s, ord) :: rest) =
          (s, ord) :: notSelected selectedIds rest := by
        simp [notSelected, List.filter_cons, hs]
      rw [hns, List.map_cons, List.mem_cons, not_or] at hmem
      simp only [disableLoop, if_neg hs]
      rw [ih _ _ _ hmem.2]
      by_cases hp : pos ≠ ord
      · rw [if_pos hp, dget_dset_ne _ _ _ _ hmem.1]
      · rw [if_neg hp]

/-- What the renumbering loop of `disable_selected_songs` assigns: the
`j`-th non-selected folder song (database order) gets position `pos + j`,
except that no entry is written when that already is its stored order. -/
theorem disableLoop_assign (selectedIds : List String) :
    ∀ (fs : List (SongRec × Int)) (c : Changes) (pos : Int),
      ((notSelected selectedIds fs).map (fun q => q.1.id)).Nodup →
      ∀ (j : Nat) q, (notSelected selectedIds fs)[j]? = some q →
        dget (disableLoop selectedIds fs c pos) q.1.id =
          if pos + (j : Int) ≠ q.2 then some (pos + (j : Int))
          else dget c q.1.id := by
  intro fs
  induction fs with
  | nil =>
    intro c pos _ j q hq
    simp [notSelected] at hq
  | cons hd rest ih =>
    intro c pos hnd j q hq
    obtain ⟨s, ord⟩ := hd
    by_cases hs : s.id ∈ selectedIds
    · have hns : notSelected selectedIds ((s, ord) :: rest) =
          notSelected selectedIds rest := by
        simp [notSelected, List.filter_cons, hs]
      rw [hns] at hnd hq
      simp only [disableLoop, if_pos hs]
      exact ih c pos hnd j q hq
    · have hns : notSelected selectedIds ((s, ord) :: rest) =
          (s, ord) :: notSelected selectedIds rest := by
        simp [notSelected, List.filter_cons, hs]
      rw [hns] at hnd hq
      rw [List.map_cons, List.nodup_cons] at hnd
      simp only [disableLoop, if_neg hs]
      match j, hq with
      | 0, hq =>
        rw [List.getElem?_cons_zero] at hq
        cases Option.some.inj hq
        rw [disableLoop_not_mem selectedIds rest _ _ _ hnd.1]
        simp only [Nat.cast_zero, add_zero]
        by_cases hp : pos ≠ ord
        · rw [if_pos hp, dget_dset_self, if_pos hp]
        · rw [if_neg hp, if_neg hp]
      | j + 1, hq =>
        rw [List.getElem?_cons_succ] at hq
        have := ih (if pos ≠ ord then dset c s.id pos else c) (pos + 1) hnd.2 j q hq
        rw [this]
        have harith : pos + 1 + (j : Int) = pos + ((j : Nat) + 1 : Nat) := by
          push_cast; ring
        have hne : q.1.id ≠ s.id := by
          intro hcontra
          exact hnd.1 (hcontra ▸ List.mem_map_of_mem (fun r => r.1.id)
            (List.getElem?_mem hq))
        rw [harith]
        by_cases hcond : pos + ((j : Nat) + 1 : Nat) ≠ q.2
        · rw [if_pos hcond, if_pos hcond]
        · rw [if_neg hcond, if_neg hcond]
          by_cases hp : pos ≠ ord
          · rw [if_pos hp, dget_dset_ne _ _ _ _ hne]
          · rw [if_neg hp]

/-- C7, corrected form.  `disable_selected_songs(ids)` stages every
selected song as `DISABLED` (`-1`), and walks the *database-ordered*
folder songs, assigning the `j`-th non-selected one the position `j + 1`
— writing a staged entry only when that position differs from the song's
stored order (otherwise its previous staged entry, if any, survives). -/
theorem claim_C7_amended (songs : List SongRec) (pls : List PlaylistEntry)
    (folder : String) (selectedIds : List String) (changes : Changes)
    (hne : selectedIds ≠ [])
    (hnd : ((notSelected selectedIds (load_folder_songs songs pls folder)).map
      (fun q => q.1.id)).Nodup) :
    (∀ sid ∈ selectedIds,
      dget (disable_selected_songs songs pls folder selectedIds changes) sid =
        some (-1)) ∧
    (∀ (j : Nat) q,
      (notSelected selectedIds (load_folder_songs songs pls folder))[j]? = some q →
      dget (disable_selected_songs songs pls folder selectedIds changes) q.1.id =
        if (1 : Int) + (j : Int) ≠ q.2 then some (1 + (j : Int))
        else dget changes q.1.id) := by
  have hdef : disable_selected_songs songs pls folder selectedIds changes =
      disableLoop selectedIds (load_folder_songs songs pls folder)
        (selectedIds.foldl (fun c sid => dset c sid (-1)) changes) 1 := by
    rw [disable_selected_songs, if_neg hne]
  constructor
  · intro sid hsid
    rw [hdef]
    have hnot : sid ∉ (notSelected selectedIds
        (load_folder_songs songs pls folder)).map (fun q => q.1.id) := by
      intro hmem
      rcases List.mem_map.mp hmem with ⟨q, hq, hid⟩
      rcases List.mem_filter.mp hq with ⟨_, hq2⟩
      exact (of_decide_eq_true hq2) (hid ▸ hsid)
    rw [disableLoop_not_mem selectedIds _ _ _ _ hnot]
    exact dget_foldl_dset_neg_one selectedIds changes sid hsid
  · intro j q hq
    rw [hdef]
    rw [disableLoop_assign selectedIds _ _ _ hnd j q hq]
    have hid_not : q.1.id ∉ selectedIds := by
      have hmem := List.getElem?_mem hq
      rcases List.mem_filter.mp hmem with ⟨_, hq2⟩
      exact of_decide_eq_true hq2
    rw [dget_foldl_dset_neg_one_not_mem selectedIds changes _ hid_not]

/-- C7 counterexample.  In the (reachable) scrambled state whose database
order A, B, C carries playlist orders 2, 1, 3, disabling C makes the code
renumber in database order (A gets 1, B gets 2), while the claim's
order-relative renumbering requires B (order 1) before A (order 2):
the claim as stated fails. -/
theorem claim_C7_counterexample :
    ¬ claimC7Holds songsScr plsScr exFolder ["ID0002"] [] := by
  unfold claimC7Holds
  decide

/-- C6 counterexample.  In the same scrambled state, reordering C to
position 1 makes the code compact in database order (A to 2, B to 3),
while the claim's order-relative compaction requires B (order 1) at 2 and
A (order 2) at 3: the claim as stated fails. -/
theorem claim_C6_counterexample :
    ¬ claimC6Holds songsScr plsScr exFolder ["ID0002"] 1 [] := by
  unfold claimC6Holds
  decide

/-! ### The `set_new_order` compaction loop -/

theorem dget_assignSelected_not_mem :
    ∀ (sel : List String) (c : Changes) (v : Int) (id : String), id ∉ sel →
      dget (assignSelected c sel v) id = dget c id := by
  intro sel
  induction sel with
  | nil => intro c v id _; rfl
  | cons sid rest ih =>
    intro c v id hid
    simp only [List.mem_cons, not_or] at hid
    simp only [assignSelected]
    rw [ih _ _ _ hid.2, dget_dset_ne _ _ _ _ hid.1]

theorem dget_assignSelected_get :
    ∀ (sel : List String) (c : Changes) (v : Int), sel.Nodup →
      ∀ (j : Nat) (sid : String), sel[j]? = some sid →
        dget (assignSelected c sel v) sid = some (v + (j : Int)) := by
  intro sel
  induction sel with
  | nil => intro c v _ j sid hj; simp at hj
  | cons s rest ih =>
    intro c v hnd j sid hj
    rw [List.nodup_cons] at hnd
    match j, hj with
    | 0, hj =>
      rw [List.getElem?_cons_zero] at hj
      cases Option.some.inj hj
      simp only [assignSelected]
      rw [dget_assignSelected_not_mem rest _ _ _ hnd.1, dget_dset_self]
      norm_num
    | j + 1, hj =>
      rw [List.getElem?_cons_succ] at hj
      simp only [assignSelected]
      rw [ih _ _ hnd.2 j sid hj]
      congr 1
      push_cast
      ring

/-- Membership characterisation for the claimed-position values seen by
the skip loop, once the selected songs hold `target .. target + k - 1`. -/
theorem selVals_mem_iff (sel : List String) (c : Changes) (target : Int)
    (hsel : ∀ (j : Nat) (sid : String), sel[j]? = some sid →
      dget c sid = some (target + (j : Int))) :
    ∀ q : Int, some q ∈ sel.map (fun sid => dget c sid) ↔
      (target ≤ q ∧ q < target + sel.length) := by
  intro q
  constructor
  · intro hmem
    rcases List.mem_map.mp hmem with ⟨sid, hsid, hval⟩
    rcases List.getElem?_of_mem hsid with ⟨j, hj⟩
    have hj' : j < sel.length := (List.getElem?_eq_some_iff.mp hj).1
    have := hsel j sid hj
    rw [this] at hval
    have hq : q = target + (j : Int) := (Option.some.inj hval).symm
    subst hq
    have hcast : (j : Int) < (sel.length : Int) := by exact_mod_cast hj'
    omega
  · intro hr
    obtain ⟨h1, h2⟩ := hr
    have hjlt : (q - target).toNat < sel.length := by omega
    have hgetj : sel[(q - target).toNat]? =
        some (sel.get ⟨(q - target).toNat, hjlt⟩) :=
      List.getElem?_eq_some_iff.mpr ⟨hjlt, rfl⟩
    have hval := hsel (q - target).toNat _ hgetj
    have harr : target + (((q - target).toNat : Nat) : Int) = q := by omega
    rw [harr] at hval
    exact List.mem_map.mpr ⟨_, List.getElem_mem hjlt, hval⟩

/-- The skip loop, when the claimed values are exactly the contiguous
block `[target, target + kk)`: from any position, it skips to
`target + kk` if inside the block and stays put otherwise. -/
theorem skipPosAux_range (selVals : List (Option Int)) (target : Int) (kk : Nat)
    (hmem : ∀ q : Int, some q ∈ selVals ↔ (target ≤ q ∧ q < target + kk)) :
    ∀ fuel (pos : Int), ((target + kk - pos).toNat ≤ fuel ∨ pos < target) →
      skipPosAux selVals fuel pos =
        if target ≤ pos ∧ pos < target + kk then target + (kk : Int) else pos := by
  intro fuel
  induction fuel with
  | zero =>
    intro pos hfuel
    have hcond : ¬ (target ≤ pos ∧ pos < target + kk) := by omega
    simp only [skipPosAux]
    rw [if_neg hcond]
  | succ n ih =>
    intro pos hfuel
    simp only [skipPosAux]
    by_cases hp : some pos ∈ selVals
    · have hrange := (hmem pos).mp hp
      rw [if_pos hp, ih (pos + 1) (by omega)]
      by_cases hnext : target ≤ pos + 1 ∧ pos + 1 < target + kk
      · rw [if_pos hnext, if_pos hrange]
      · rw [if_neg hnext, if_pos hrange]
        omega
    · have hrange : ¬ (target ≤ pos ∧ pos < target + kk) :=
        fun hr => hp ((hmem pos).mpr hr)
      rw [if_neg hp, if_neg hrange]

/-- The compaction loop leaves ids outside its walk unchanged. -/
theorem setOrderLoop_not_mem (selectedIds disabledIds : List String)
    (maxOrder : Int) :
    ∀ (fs : List (SongRec × Int)) (c : Changes) (pos : Int) (id : String),
      id ∉ (othersSO selectedIds disabledIds fs).map (fun q => q.1.id) →
      dget (setOrderLoop selectedIds disabledIds maxOrder fs c pos) id =
        dget c id := by
  intro fs
  induction fs with
  | nil => intro c pos id _; rfl
  | cons hd rest ih =>
    intro c pos id hmem
    obtain ⟨s, ord⟩ := hd
    by_cases hs : s.id ∉ selectedIds ∧ s.id ∉ disabledIds
    · have hns : othersSO selectedIds disabledIds ((s, ord) :: rest) =
          (s, ord) :: othersSO selectedIds disabledIds rest := by
        simp [othersSO, List.filter_cons, hs.1, hs.2]
      rw [hns, List.map_cons, List.mem_cons, not_or] at hmem
      simp only [setOrderLoop, if_pos hs]
      by_cases hguard : skipPos (selectedIds.map (fun sid => dget c sid)) pos ≤ maxOrder
      · rw [if_pos hguard, ih _ _ _ hmem.2, dget_dset_ne _ _ _ _ hmem.1]
      · rw [if_neg hguard, ih _ _ _ hmem.2]
    · have hns : othersSO selectedIds disabledIds ((s, ord) :: rest) =
          othersSO selectedIds disabledIds rest := by
        simp only [othersSO, List.filter_cons]
        rw [if_neg (by simpa using hs)]
      rw [hns] at hmem
      simp only [setOrderLoop, if_neg hs]
      exact ih _ _ _ hmem

/-- What the compaction loop of `set_new_order` assigns: provided the
selected songs hold the block `target .. target + k - 1`, the walked
songs receive, in database order, the consecutive positions from `pos`
that skip that block (`nextSlots`), as long as the guard
`current_pos <= max_order` keeps passing. -/
theorem setOrderLoop_assign (selectedIds disabledIds : List String)
    (maxOrder target : Int) :
    ∀ (fs : List (SongRec × Int)) (c : Changes) (pos : Int),
      (∀ (j : Nat) (sid : String), selectedIds[j]? = some sid →
        dget c sid = some (target + (j : Int))) →
      ((othersSO selectedIds disabledIds fs).map (fun q => q.1.id)).Nodup →
      (∀ v ∈ nextSlots target selectedIds.length pos
        (othersSO selectedIds disabledIds fs).length, v ≤ maxOrder) →
      (othersSO selectedIds disabledIds fs).map
          (fun q => dget (setOrderLoop selectedIds disabledIds maxOrder fs c pos)
            q.1.id) =
        (nextSlots target selectedIds.length pos
          (othersSO selectedIds disabledIds fs).length).map some := by
  intro fs
  induction fs with
  | nil => intro c pos _ _ _; rfl
  | cons hd rest ih =>
    intro c pos hsel hnd hguard
    obtain ⟨s, ord⟩ := hd
    by_cases hs : s.id ∉ selectedIds ∧ s.id ∉ disabledIds
    · have hns : othersSO selectedIds disabledIds ((s, ord) :: rest) =
          (s, ord) :: othersSO selectedIds disabledIds rest := by
        simp [othersSO, List.filter_cons, hs.1, hs.2]
      rw [hns] at hnd hguard ⊢
      rw [List.map_cons, List.nodup_cons] at hnd
      simp only [setOrderLoop, if_pos hs]
      have hmemiff := selVals_mem_iff selectedIds c target hsel
      have hskip : skipPos (selectedIds.map (fun sid => dget c sid)) pos =
          if target ≤ pos ∧ pos < target + selectedIds.length then
            target + (selectedIds.length : Int)
          else pos := by
        rw [skipPos, List.length_map]
        have hdisj : ((target + selectedIds.length - pos).toNat ≤
            selectedIds.length ∨ pos < target) := by
          by_cases h : pos < target
          · exact Or.inr h
          · exact Or.inl (by omega)
        exact skipPosAux_range _ target selectedIds.length hmemiff
          selectedIds.length pos hdisj
      rw [hskip]
      have hslots : nextSlots target selectedIds.length pos
          ((s, ord) :: othersSO selectedIds disabledIds rest).length =
          (if target ≤ pos ∧ pos < target + selectedIds.length then
            target + (selectedIds.length : Int) else pos) ::
          nextSlots target selectedIds.length
            ((if target ≤ pos ∧ pos < target + selectedIds.length then
              target + (selectedIds.length : Int) else pos) + 1)
            (othersSO selectedIds disabledIds rest).length := by
        simp only [List.length_cons, nextSlots]
      rw [hslots] at hguard ⊢
      have hhead : (if target ≤ pos ∧ pos < target + selectedIds.length then
          target + (selectedIds.length : Int) else pos) ≤ maxOrder :=
        hguard _ (List.mem_cons_self _ _)
      rw [if_pos hhead, List.map_cons, List.map_cons]
      refine List.cons_eq_cons.mpr ⟨?_, ?_⟩
      · rw [setOrderLoop_not_mem selectedIds disabledIds maxOrder rest _ _ _ hnd.1,
          dget_dset_self]
      · refine ih (dset c s.id _) _ (fun j sid hj => ?_) hnd.2
          (fun v hv => hguard v (List.mem_cons_of_mem _ hv))
        have hne : sid ≠ s.id := by
          intro hcontra
          exact hs.1 (hcontra ▸ List.getElem?_mem hj)
        rw [dget_dset_ne _ _ _ _ hne]
        exact hsel j sid hj
    · have hns : othersSO selectedIds disabledIds ((s, ord) :: rest) =
          othersSO selectedIds disabledIds rest := by
        simp only [othersSO, List.filter_cons]
        rw [if_neg (by simpa using hs)]
      rw [hns] at hnd hguard ⊢
      simp only [setOrderLoop, if_neg hs]
      exact ih c pos hsel hnd hguard

/-- C6, corrected form.  `set_new_order(selected, target)` gives the
selected songs the consecutive positions `target, target + 1, ...` (in
selection order); keeps staged-disabled songs `DISABLED`; and compacts
the remaining folder songs — walked in *database* order, not in
order-relative order — into the consecutive positions from `1` that skip
the selected block, as long as those positions stay within the folder's
song count.  (`disIds`, `others` and `slots` name the staged-disabled
ids, the compacted songs, and the handed-out positions.) -/
theorem claim_C6_amended (songs : List SongRec) (pls : List PlaylistEntry)
    (folder : String) (selectedIds : List String) (target : Int)
    (changes : Changes) (disIds : List String) (others : List (SongRec × Int))
    (slots : List Int)
    (hdis : disIds = (changes.filter
      (fun p => decide (p.2 = -1 ∧ p.1 ∉ selectedIds))).map (fun p => p.1))
    (hoth : others = othersSO selectedIds disIds
      (load_folder_songs songs pls folder))
    (hslots : slots = nextSlots target selectedIds.length 1 others.length)
    (hne : selectedIds ≠ [])
    (hndsel : selectedIds.Nodup)
    (hndothers : (others.map (fun q => q.1.id)).Nodup)
    (hwf : (changes.map (fun p => p.1)).Nodup)
    (hguard : ∀ v ∈ slots, v ≤ ((load_folder_songs songs pls folder).length : Int)) :
    (∀ (j : Nat) (sid : String), selectedIds[j]? = some sid →
      dget (set_new_order songs pls folder selectedIds target changes) sid =
        some (target + (j : Int))) ∧
    (others.map (fun q =>
      dget (set_new_order songs pls folder selectedIds target changes) q.1.id) =
      slots.map some) ∧
    (∀ p ∈ changes, p.2 = -1 → p.1 ∉ selectedIds →
      dget (set_new_order songs pls folder selectedIds target changes) p.1 =
        some (-1)) := by
  subst hdis hoth hslots
  have hres : set_new_order songs pls folder selectedIds target changes =
      (changes.filter (fun p => decide (p.2 = -1 ∧ p.1 ∉ selectedIds))).foldl
        (fun c p => dset c p.1 p.2)
        (setOrderLoop selectedIds
          ((changes.filter (fun p => decide (p.2 = -1 ∧ p.1 ∉ selectedIds))).map
            (fun p => p.1))
          ((load_folder_songs songs pls folder).length : Int)
          (load_folder_songs songs pls folder)
          (assignSelected changes selectedIds target) 1) := by
    unfold set_new_order
    rw [if_neg hne]
  have hdiskeys_nd : (((changes.filter
      (fun p => decide (p.2 = -1 ∧ p.1 ∉ selectedIds))).map
      (fun p => p.1)).Nodup) :=
    List.Nodup.sublist ((List.filter_sublist changes).map (fun p => p.1)) hwf
  have hsel_inv : ∀ (j : Nat) (sid : String), selectedIds[j]? = some sid →
      dget (assignSelected changes selectedIds target) sid =
        some (target + (j : Int)) :=
    fun j sid hj => dget_assignSelected_get selectedIds changes target hndsel j sid hj
  refine ⟨?_, ?_, ?_⟩
  · intro j sid hj
    have hsid_mem : sid ∈ selectedIds := List.getElem?_mem hj
    have hnotdis : sid ∉ (changes.filter
        (fun p => decide (p.2 = -1 ∧ p.1 ∉ selectedIds))).map (fun p => p.1) := by
      intro hmem
      rcases List.mem_map.mp hmem with ⟨p, hp, hid⟩
      rcases List.mem_filter.mp hp with ⟨_, hcond⟩
      exact (of_decide_eq_true hcond).2 (hid ▸ hsid_mem)
    have hnototh : sid ∉ (othersSO selectedIds
        ((changes.filter (fun p => decide (p.2 = -1 ∧ p.1 ∉ selectedIds))).map
          (fun p => p.1))
        (load_folder_songs songs pls folder)).map (fun q => q.1.id) := by
      intro hmem
      rcases List.mem_map.mp hmem with ⟨q, hq, hid⟩
      rcases List.mem_filter.mp hq with ⟨_, hcond⟩
      exact (of_decide_eq_true hcond).1 (hid ▸ hsid_mem)
    rw [hres, dget_foldl_dset_of_not_mem _ _ _ hnotdis,
      setOrderLoop_not_mem _ _ _ _ _ _ _ hnototh]
    exact hsel_inv j sid hj
  · rw [hres]
    have hpointwise : ∀ q ∈ othersSO selectedIds
        ((changes.filter (fun p => decide (p.2 = -1 ∧ p.1 ∉ selectedIds))).map
          (fun p => p.1))
        (load_folder_songs songs pls folder),
        dget ((changes.filter (fun p => decide (p.2 = -1 ∧ p.1 ∉ selectedIds))).foldl
          (fun c p => dset c p.1 p.2)
          (setOrderLoop selectedIds
            ((changes.filter (fun p => decide (p.2 = -1 ∧ p.1 ∉ selectedIds))).map
              (fun p => p.1))
            ((load_folder_songs songs pls folder).length : Int)
            (load_folder_songs songs pls folder)
            (assignSelected changes selectedIds target) 1)) q.1.id =
        dget (setOrderLoop selectedIds
          ((changes.filter (fun p => decide (p.2 = -1 ∧ p.1 ∉ selectedIds))).map
            (fun p => p.1))
          ((load_folder_songs songs pls folder).length : Int)
          (load_folder_songs songs pls folder)
          (assignSelected changes selectedIds target) 1) q.1.id := by
      intro q hq
      rcases List.mem_filter.mp hq with ⟨_, hcond⟩
      exact dget_foldl_dset_of_not_mem _ _ _ (of_decide_eq_true hcond).2
    rw [List.map_congr_left hpointwise]
    exact setOrderLoop_assign selectedIds _ _ target
      (load_folder_songs songs pls folder)
      (assignSelected changes selectedIds target) 1 hsel_inv hndothers hguard
  · intro p hp hval hnot
    have hpmem : p ∈ changes.filter
        (fun p => decide (p.2 = -1 ∧ p.1 ∉ selectedIds)) := by
      rw [List.mem_filter]
      exact ⟨hp, by simp [hval, hnot]⟩
    have hfold := dget_foldl_dset_self
      (changes.filter (fun p => decide (p.2 = -1 ∧ p.1 ∉ selectedIds)))
      (setOrderLoop selectedIds
        ((changes.filter (fun p => decide (p.2 = -1 ∧ p.1 ∉ selectedIds))).map
          (fun p => p.1))
        ((load_folder_songs songs pls folder).length : Int)
        (load_folder_songs songs pls folder)
        (assignSelected changes selectedIds target) 1)
      hdiskeys_nd p hpmem
    rw [hres, hfold, hval]

/-- Witness for C6's corrected theorem: the claim's own concrete scenario
— five enabled songs ordered 1..5, select the song at position 4, target
position 1.  The selected song is staged at 1, the other four compact to
2, 3, 4, 5 in order; and (third conjunct) the claim as stated also holds
here, because the database order coincides with the order-relative
order. -/
theorem claim_C6_amended_witness :
    dget (set_new_order songs5 pls5 exFolder ["ID0003"] 1 []) "ID0003" =
      some 1 ∧
    (othersSO ["ID0003"] [] (load_folder_songs songs5 pls5 exFolder)).map
      (fun q => dget (set_new_order songs5 pls5 exFolder ["ID0003"] 1 [])
        q.1.id) = [some 2, some 3, some 4, some 5] ∧
    claimC6Holds songs5 pls5 exFolder ["ID0003"] 1 [] := by
  have h := claim_C6_amended songs5 pls5 exFolder ["ID0003"] 1 [] []
    (othersSO ["ID0003"] [] (load_folder_songs songs5 pls5 exFolder))
    (nextSlots 1 1 1 (othersSO ["ID0003"] []
      (load_folder_songs songs5 pls5 exFolder)).length)
    (by decide) rfl rfl (by decide) (by decide) (by decide) (by decide)
    (by decide)
  refine ⟨?_, ?_, ?_⟩
  · have h1 := h.1 0 "ID0003" rfl
    simpa using h1
  · have h2 := h.2.1
    rw [h2]
    decide
  · unfold claimC6Holds
    decide

/-- Helper: the three-digit zero-padded form of `100*v1 + 10*v2 + v3`
recovers the three digit characters, for digit values `< 10`. -/
theorem padZeros_decimalDigits_three :
    ∀ v1 < 10, ∀ v2 < 10, ∀ v3 < 10,
      padZeros 3 (decimalDigits (100 * v1 + 10 * v2 + v3)) =
        [Char.ofNat (48 + v1), Char.ofNat (48 + v2), Char.ofNat (48 + v3)] := by
  decide

/-- Helper: a digit character is recovered from its numeric value. -/
theorem char_ofNat_of_digit (c : Char) (h : isDigitChar c = true) :
    Char.ofNat (48 + (c.toNat - 48)) = c := by
  simp only [isDigitChar, Bool.and_eq_true, decide_eq_true_eq] at h
  have h48 : 48 + (c.toNat - 48) = c.toNat := by omega
  rw [h48]
  have hv : c.val.isValidChar := c.valid
  simp only [Char.ofNat, Char.toNat, hv, dif_pos]
  rfl

/-- Helper: `digitsToNat` of three digit characters. -/
theorem digitsToNat_three (d1 d2 d3 : Char) :
    digitsToNat [d1, d2, d3] =
      100 * (d1.toNat - 48) + 10 * (d2.toNat - 48) + (d3.toNat - 48) := by
  simp only [digitsToNat, List.foldl]
  omega

/-- C4, corrected form.  When the separator matched by `\s+` is exactly
one space character and there is no trailing newline — i.e. the input is
literally `ddd` + `' '` + a remainder that starts with a non-whitespace
character and contains no `'\n'` — parsing and re-formatting restores the
input exactly. -/
theorem claim_C4_roundtrip (d1 d2 d3 c : Char) (g : List Char)
    (hd1 : isDigitChar d1 = true) (hd2 : isDigitChar d2 = true)
    (hd3 : isDigitChar d3 = true)
    (hc : isWsChar c = false) (hn : '\n' ∉ c :: g) :
    orderPatternMatch (d1 :: d2 :: d3 :: ' ' :: c :: g) = some ([d1, d2, d3], c :: g) ∧
    formatOrderName ((digitsToNat [d1, d2, d3] : Nat) : Int) (c :: g) =
      d1 :: d2 :: d3 :: ' ' :: c :: g := by
  constructor
  · have hrun : wsRunLen (' ' :: c :: g) = 1 := by
      have h1 : isWsChar ' ' = true := by decide
      simp only [wsRunLen, List.takeWhile_cons, h1, hc]
      simp
    simp only [orderPatternMatch, hd1, hd2, hd3, Bool.and_self, hrun]
    have hdp : dotPlusDollar (c :: g) = some (c :: g) := by
      simp [dotPlusDollar, hn]
    simp [findGroup2, hdp]
  · have hfmt : format03 ((digitsToNat [d1, d2, d3] : Nat) : Int) =
        [d1, d2, d3] := by
      have hnn : ¬ (((digitsToNat [d1, d2, d3] : Nat) : Int) < 0) := by
        exact not_lt.mpr (Int.natCast_nonneg _)
      simp only [format03, hnn, if_false, Int.toNat_natCast]
      rw [digitsToNat_three]
      have b1 : d1.toNat - 48 < 10 := by
        simp only [isDigitChar, Bool.and_eq_true, decide_eq_true_eq] at hd1
        omega
      have b2 : d2.toNat - 48 < 10 := by
        simp only [isDigitChar, Bool.and_eq_true, decide_eq_true_eq] at hd2
        omega
      have b3 : d3.toNat - 48 < 10 := by
        simp only [isDigitChar, Bool.and_eq_true, decide_eq_true_eq] at hd3
        omega
      rw [padZeros_decimalDigits_three _ b1 _ b2 _ b3,
        char_ofNat_of_digit d1 hd1, char_ofNat_of_digit d2 hd2,
        char_ofNat_of_digit d3 hd3]
    simp [formatOrderName, hfmt]

/-- Witness for C4's corrected theorem at the concrete file name
`"001 A.mp3"`. -/
theorem claim_C4_roundtrip_witness :
    orderPatternMatch ('0' :: '0' :: '1' :: ' ' :: 'A' :: ['.', 'm', 'p', '3']) =
      some (['0', '0', '1'], 'A' :: ['.', 'm', 'p', '3']) ∧
    formatOrderName ((digitsToNat ['0', '0', '1'] : Nat) : Int) ('A' :: ['.', 'm', 'p', '3']) =
      '0' :: '0' :: '1' :: ' ' :: 'A' :: ['.', 'm', 'p', '3'] :=
  claim_C4_roundtrip '0' '0' '1' 'A' ['.', 'm', 'p', '3']
    (by decide) (by decide) (by decide) (by decide) (by decide)

/-- C4 counterexample: `"001  A"` (two spaces) matches the pattern with
`group(2) = "A"`, but formatting joins with a single space, so the
round-trip does not restore the input. -/
theorem claim_C4_counterexample :
    orderPatternMatch ['0', '0', '1', ' ', ' ', 'A'] = some (['0', '0', '1'], ['A']) ∧
    formatOrderName ((digitsToNat ['0', '0', '1'] : Nat) : Int) ['A'] ≠
      ['0', '0', '1', ' ', ' ', 'A'] := by
  decide

/-! ## Claim C5: gap filler -/

/-- Correctness of the scan: if every used number is at most `m`, the scan
starting at `i` with `m + 2 - i` steps returns the least free number `≥ i`
(given that everything below `i` is used). -/
theorem findOrderScan_least (used : List Nat) (m : Nat) (hum : ∀ x ∈ used, x ≤ m) :
    ∀ fuel i, 1 ≤ i → i + fuel = m + 2 →
      (∀ q, 1 ≤ q → q < i → q ∈ used) →
      findOrderScan used (m + 1) i fuel ∉ used ∧
      1 ≤ findOrderScan used (m + 1) i fuel ∧
      ∀ j, 1 ≤ j → j ∉ used → findOrderScan used (m + 1) i fuel ≤ j := by
  intro fuel
  induction fuel with
  | zero =>
    intro i h1 hsum hbelow
    exfalso
    have hmem : m + 1 ∈ used := hbelow (m + 1) (by omega) (by omega)
    have := hum _ hmem
    omega
  | succ n ih =>
    intro i h1 hsum hbelow
    by_cases hi : i ∈ used
    · simp only [findOrderScan]
      rw [if_pos hi]
      exact ih (i + 1) (by omega) (by omega) (by
        intro q hq1 hq2
        by_cases hqi : q = i
        · exact hqi ▸ hi
        · exact hbelow q hq1 (by omega))
    · simp only [findOrderScan]
      rw [if_neg hi]
      refine ⟨hi, h1, ?_⟩
      intro j hj1 hj2
      by_contra hlt
      exact hj2 (hbelow j hj1 (by omega))

/-- C5, corrected form.  Provided every used order number of the folder is
at most `current_max` (as is the case when `current_max` is the maximum
used order), `find_next_available_order` returns the smallest positive
integer whose order number is not already used — in particular never a
used one. -/
theorem claim_C5_next_available (songs : List SongRec) (folder : String)
    (currentMax : Nat)
    (hum : ∀ x ∈ usedNumbers songs folder, x ≤ currentMax) :
    find_next_available_order songs folder currentMax ∉ usedNumbers songs folder ∧
    1 ≤ find_next_available_order songs folder currentMax ∧
    ∀ j, 1 ≤ j → j ∉ usedNumbers songs folder →
      find_next_available_order songs folder currentMax ≤ j := by
  have h := findOrderScan_least (usedNumbers songs folder) currentMax hum
    (currentMax + 1) 1 (by omega) (by omega) (by intro q hq1 hq2; omega)
  exact h

/-- Witness for C5's corrected theorem: with used orders `{1, 2}` and
`current_max = 2`, the function returns `3`, the least free positive
integer. -/
theorem claim_C5_next_available_witness :
    (∀ x ∈ usedNumbers c5Songs "f", x ≤ 2) ∧
    find_next_available_order c5Songs "f" 2 ∉ usedNumbers c5Songs "f" ∧
    1 ≤ find_next_available_order c5Songs "f" 2 ∧
    ∀ j, 1 ≤ j → j ∉ usedNumbers c5Songs "f" →
      find_next_available_order c5Songs "f" 2 ≤ j :=
  ⟨by decide, claim_C5_next_available c5Songs "f" 2 (by decide)⟩

/-- C5 counterexample: with used orders `{1, 2}` but `current_max = 1`,
the scan over `1..2` finds nothing free and the fallback `current_max + 1`
returns `2`, which **is** already used (and is not the smallest free
positive integer, `3`). -/
theorem claim_C5_counterexample :
    find_next_available_order c5Songs "f" 1 = 2 ∧
    2 ∈ usedNumbers c5Songs "f" := by
  decide

/-! ## `update_playlist_order` versus `get_playlist_order` -/

/-- Updating one id's entry does not move or change entries of other ids
in one entry list (with any continuation appended). -/
theorem find?_updateOrderList_ne (id id' : String) (v : Int) (h : id ≠ id') :
    ∀ (os tail : List (String × Int)),
      (updateOrderList os id' v ++ tail).find? (fun o => decide (o.1 = id)) =
        (os ++ tail).find? (fun o => decide (o.1 = id)) := by
  intro os
  induction os with
  | nil =>
    intro tail
    simp only [updateOrderList, List.cons_append, List.nil_append]
    rw [List.find?_cons_of_neg _ (by simpa using Ne.symm h)]
  | cons o os' ih =>
    intro tail
    by_cases ho : o.1 = id'
    · simp only [updateOrderList, if_pos ho, List.cons_append]
      have hk : ¬ o.1 = id := fun hk => h (hk ▸ ho)
      rw [List.find?_cons_of_neg _ (by simpa using hk),
        List.find?_cons_of_neg _ (by simpa using hk)]
    · simp only [updateOrderList, if_neg ho, List.cons_append]
      by_cases hk : o.1 = id
      · rw [List.find?_cons_of_pos _ (by simpa using hk),
          List.find?_cons_of_pos _ (by simpa using hk)]
      · rw [List.find?_cons_of_neg _ (by simpa using hk),
          List.find?_cons_of_neg _ (by simpa using hk)]
        exact ih tail

/-- After updating an id's entry, that id's first entry holds the new
value (with any continuation appended). -/
theorem find?_updateOrderList_self (id : String) (v : Int) :
    ∀ (os tail : List (String × Int)),
      ((updateOrderList os id v ++ tail).find?
        (fun o => decide (o.1 = id))).map (fun o => o.2) = some v := by
  intro os
  induction os with
  | nil =>
    intro tail
    simp only [updateOrderList, List.cons_append, List.nil_append]
    rw [List.find?_cons_of_pos _ (by simp)]
    rfl
  | cons o os' ih =>
    intro tail
    by_cases ho : o.1 = id
    · simp only [updateOrderList, if_pos ho, List.cons_append]
      rw [List.find?_cons_of_pos _ (by simpa using ho)]
      rfl
    · simp only [updateOrderList, if_neg ho, List.cons_append]
      rw [List.find?_cons_of_neg _ (by simpa using ho)]
      exact ih tail

/-- `find?` over an append only depends on the continuation through its
own `find?`. -/
theorem find?_append_congr {α : Type} (p : α → Bool) :
    ∀ (l t₁ t₂ : List α), t₁.find? p = t₂.find? p →
      (l ++ t₁).find? p = (l ++ t₂).find? p := by
  intro l
  induction l with
  | nil => intro t₁ t₂ h; simpa using h
  | cons a l' ih =>
    intro t₁ t₂ h
    by_cases ha : p a = true
    · simp only [List.cons_append]
      rw [List.find?_cons_of_pos _ ha, List.find?_cons_of_pos _ ha]
    · simp only [List.cons_append]
      rw [List.find?_cons_of_neg _ (by simpa using ha),
        List.find?_cons_of_neg _ (by simpa using ha)]
      exact ih t₁ t₂ h

/-- `ordersFlat` of a cons. -/
theorem ordersFlat_cons (p : PlaylistEntry) (rest : List PlaylistEntry)
    (folder : String) :
    ordersFlat (p :: rest) folder =
      if p.folder_path = folder then p.orders ++ ordersFlat rest folder
      else ordersFlat rest folder := by
  by_cases h : p.folder_path = folder
  · simp [ordersFlat, List.filter_cons, h]
  · simp [ordersFlat, List.filter_cons, h]

/-- An update for one id leaves every other id's `get_playlist_order`
unchanged, for every folder (even when the update created a playlist). -/
theorem get_update_ne (f' : String) (id' : String) (v : Int)
    (f id : String) (h : id ≠ id') :
    ∀ pls, get_playlist_order (update_playlist_order pls f' id' v) f id =
      get_playlist_order pls f id := by
  have key : ∀ pls, (ordersFlat (update_playlist_order pls f' id' v) f).find?
      (fun o => decide (o.1 = id)) =
      (ordersFlat pls f).find? (fun o => decide (o.1 = id)) := by
    intro pls
    induction pls with
    | nil =>
      by_cases hf : f' = f
      · simp [update_playlist_order, ordersFlat, List.filter_cons, hf,
          List.find?, Ne.symm h]
      · simp [update_playlist_order, ordersFlat, List.filter_cons, hf]
    | cons p rest ih =>
      simp only [update_playlist_order]
      by_cases hp : p.folder_path = f'
      · rw [if_pos hp]
        by_cases hf : p.folder_path = f
        · have he1 : ordersFlat
              (⟨p.folder_path, updateOrderList p.orders id' v⟩ :: rest) f =
              updateOrderList p.orders id' v ++ ordersFlat rest f := by
            rw [ordersFlat_cons]
            exact if_pos hf
          have he2 : ordersFlat (p :: rest) f = p.orders ++ ordersFlat rest f := by
            rw [ordersFlat_cons]
            exact if_pos hf
          rw [he1, he2]
          exact find?_updateOrderList_ne id id' v h p.orders (ordersFlat rest f)
        · have he1 : ordersFlat
              (⟨p.folder_path, updateOrderList p.orders id' v⟩ :: rest) f =
              ordersFlat rest f := by
            rw [ordersFlat_cons]
            exact if_neg hf
          have he2 : ordersFlat (p :: rest) f = ordersFlat rest f := by
            rw [ordersFlat_cons]
            exact if_neg hf
          rw [he1, he2]
      · rw [if_neg hp, ordersFlat_cons, ordersFlat_cons]
        by_cases hf : p.folder_path = f
        · rw [if_pos hf, if_pos hf]
          exact find?_append_congr _ p.orders _ _ ih
        · rw [if_neg hf, if_neg hf]
          exact ih
  intro pls
  unfold get_playlist_order
  rw [key pls]

/-- After updating `(folder, id)` to `v`, `get_playlist_order` at
`(folder, id)` returns `v`. -/
theorem get_update_self (f id : String) (v : Int) :
    ∀ pls, get_playlist_order (update_playlist_order pls f id v) f id = v := by
  have key : ∀ pls, ((ordersFlat (update_playlist_order pls f id v) f).find?
      (fun o => decide (o.1 = id))).map (fun o => o.2) = some v := by
    intro pls
    induction pls with
    | nil =>
      simp only [update_playlist_order]
      have he : ordersFlat ([⟨f, [(id, v)]⟩] : List PlaylistEntry) f =
          [(id, v)] ++ ordersFlat [] f := by
        rw [ordersFlat_cons]
        exact if_pos rfl
      rw [he]
      exact find?_updateOrderList_self id v [] (ordersFlat [] f)
    | cons p rest ih =>
      simp only [update_playlist_order]
      by_cases hp : p.folder_path = f
      · rw [if_pos hp]
        have he : ordersFlat
            (⟨p.folder_path, updateOrderList p.orders id v⟩ :: rest) f =
            updateOrderList p.orders id v ++ ordersFlat rest f := by
          rw [ordersFlat_cons]
          exact if_pos hp
        rw [he]
        exact find?_updateOrderList_self id v p.orders (ordersFlat rest f)
      · rw [if_neg hp]
        have he : ordersFlat (p :: update_playlist_order rest f id v) f =
            ordersFlat (update_playlist_order rest f id v) f := by
          rw [ordersFlat_cons]
          exact if_neg hp
        rw [he]
        exact ih
  intro pls
  unfold get_playlist_order
  have hv := key pls
  rcases hfind : (ordersFlat (update_playlist_order pls f id v) f).find?
      (fun o => decide (o.1 = id)) with _ | found
  · rw [hfind] at hv
    simp at hv
  · rw [hfind] at hv
    simp only [hfind]
    simpa using hv

/-- Updating one id's entries leaves the whole-database entry view of any
other id untouched. -/
theorem entriesForId_update_ne (f' : String) (id' : String) (v : Int)
    (id : String) (h : id ≠ id') :
    ∀ pls, entriesForId (update_playlist_order pls f' id' v) id =
      entriesForId pls id := by
  have hfilter : ∀ os, (updateOrderList os id' v).filter
      (fun o => decide (o.1 = id)) = os.filter (fun o => decide (o.1 = id)) := by
    intro os
    induction os with
    | nil =>
      simp only [updateOrderList]
      rw [List.filter_cons]
      simp [Ne.symm h]
    | cons o os' ih =>
      by_cases ho : o.1 = id'
      · simp only [updateOrderList, if_pos ho]
        rw [List.filter_cons, List.filter_cons]
        have hk : ¬ o.1 = id := fun hk => h (hk ▸ ho)
        simp [hk]
      · simp only [updateOrderList, if_neg ho]
        rw [List.filter_cons, List.filter_cons, ih]
  intro pls
  induction pls with
  | nil =>
    simp only [update_playlist_order, entriesForId, List.flatMap_cons,
      List.flatMap_nil]
    rw [List.filter_cons]
    simp [Ne.symm h]
  | cons p rest ih =>
    simp only [update_playlist_order]
    by_cases hp : p.folder_path = f'
    · rw [if_pos hp]
      simp only [entriesForId, List.flatMap_cons]
      rw [hfilter]
    · rw [if_neg hp]
      simp only [entriesForId, List.flatMap_cons]
      simp only [entriesForId] at ih
      rw [ih]

/-! ## The in-place `apply_changes` loop -/

/-- The `Disabled` subdirectory is a different directory from the folder
itself (it is nine characters longer). -/
theorem disabledDirOf_ne (folder : String) : disabledDirOf folder ≠ folder := by
  intro h
  have hlen := congrArg String.length h
  rw [disabledDirOf, String.length_append] at hlen
  have : ("/Disabled" : String).length = 9 := rfl
  omega

/-- The `is_disabled` test of `apply_changes` is equivalent to the
effective staged order being the sentinel `-1`. -/
theorem isDisabled_iff (pls : List PlaylistEntry) (folder : String)
    (changes : Changes) (s : SongRec) :
    (dgetD changes s.id (get_playlist_order pls folder s.id) = -1 ∨
      (dget changes s.id = none ∧ get_playlist_order pls folder s.id = -1)) ↔
    effOrderAt pls folder changes s = -1 := by
  unfold effOrderAt dgetD
  cases h : dget changes s.id <;> simp [h]

/-- `folderSongsOf` over a cons whose head is in the folder. -/
theorem folderSongsOf_cons_pos (s : SongRec) (rest : List SongRec)
    (folder : String) (h : s.path.dir = folder) :
    folderSongsOf (s :: rest) folder = s :: folderSongsOf rest folder := by
  simp [folderSongsOf, List.filter_cons, h]

/-- `folderSongsOf` over a cons whose head is outside the folder. -/
theorem folderSongsOf_cons_neg (s : SongRec) (rest : List SongRec)
    (folder : String) (h : ¬ s.path.dir = folder) :
    folderSongsOf (s :: rest) folder = folderSongsOf rest folder := by
  simp [folderSongsOf, List.filter_cons, h]

/-- The success case of the in-place loop.  With pairwise-distinct ids
among the folder's songs, a run that returns without error (a) keeps
exactly the effectively-enabled folder songs in the folder (in order, by
id), (b) leaves order lookups of ids outside the walked folder songs
unchanged, and (c) gives every effectively-enabled folder song the order
it was staged to (its effective order, read against the playlists the
loop started from). -/
theorem inplaceLoop_success (ioFail : String → Bool) (tagRes : String → TagRes)
    (folder : String) (changes : Changes) :
    ∀ (rem rem' : List SongRec) (pls pls' : List PlaylistEntry)
      (acts acts' : List FsAction),
      ((folderSongsOf rem folder).map (fun s => s.id)).Nodup →
      inplaceLoop ioFail tagRes folder changes rem pls acts =
        (rem', pls', acts', none) →
      ((folderSongsOf rem' folder).map (fun s => s.id) =
        ((folderSongsOf rem folder).filter
          (fun s => decide (effOrderAt pls folder changes s ≠ -1))).map
          (fun s => s.id)) ∧
      (∀ id, id ∉ (folderSongsOf rem folder).map (fun s => s.id) →
        get_playlist_order pls' folder id = get_playlist_order pls folder id) ∧
      (∀ s ∈ folderSongsOf rem folder, effOrderAt pls folder changes s ≠ -1 →
        get_playlist_order pls' folder s.id = effOrderAt pls folder changes s) := by
  intro rem
  induction rem with
  | nil =>
    intro rem' pls pls' acts acts' hnd hrun
    simp only [inplaceLoop, Prod.mk.injEq] at hrun
    obtain ⟨h1, h2, h3, h4⟩ := hrun
    subst h1 h2
    refine ⟨rfl, fun id _ => rfl, fun s hs _ => absurd hs (by simp [folderSongsOf])⟩
  | cons s rest ih =>
    intro rem' pls pls' acts acts' hnd hrun
    by_cases hdir : s.path.dir = folder
    · rw [folderSongsOf_cons_pos s rest folder hdir] at hnd ⊢
      rw [List.map_cons, List.nodup_cons] at hnd
      simp only [inplaceLoop] at hrun
      rw [if_pos hdir] at hrun
      by_cases hdisab : effOrderAt pls folder changes s = -1
      · rw [if_pos ((isDisabled_iff pls folder changes s).mpr hdisab)] at hrun
        by_cases hio : ioFail s.id
        · rw [if_pos hio] at hrun
          simp only [Prod.mk.injEq] at hrun
          cases hrun.2.2.2
        · rw [if_neg hio] at hrun
          rcases hrec : inplaceLoop ioFail tagRes folder changes rest pls
              (acts ++ [FsAction.move s.id s.path ⟨disabledDirOf folder, s.path.base⟩])
            with ⟨rest', pls₁, acts₁, e⟩
          rw [hrec] at hrun
          simp only [Prod.mk.injEq] at hrun
          obtain ⟨hrem', hpls', hacts', he⟩ := hrun
          subst hpls'
          subst he
          obtain ⟨ih1, ih2, ih3⟩ := ih rest' pls _ _ _ hnd.2 hrec
          subst hrem'
          rw [folderSongsOf_cons_neg _ _ _ (by
            show ¬ disabledDirOf folder = folder
            exact disabledDirOf_ne folder)]
          refine ⟨?_, ?_, ?_⟩
          · rw [List.filter_cons]
            rw [if_neg (by simpa using hdisab)]
            exact ih1
          · intro id hid
            simp only [List.map_cons, List.mem_cons, not_or] at hid
            exact ih2 id hid.2
          · intro t ht hefft
            rcases List.mem_cons.mp ht with h | h
            · exact absurd (h ▸ hefft) (by simp [hdisab])
            · exact ih3 t h hefft
      · rw [if_neg (fun hcontra =>
          hdisab ((isDisabled_iff pls folder changes s).mp hcontra))] at hrun
        by_cases hio : ioFail s.id
        · rw [if_pos hio] at hrun
          simp only [Prod.mk.injEq] at hrun
          cases hrun.2.2.2
        · rw [if_neg hio] at hrun
          by_cases htag : tagRes s.id = TagRes.saveError
          · rw [if_pos htag] at hrun
            simp only [Prod.mk.injEq] at hrun
            cases hrun.2.2.2
          · rw [if_neg htag] at hrun
            rcases hrec : inplaceLoop ioFail tagRes folder changes rest
                (update_playlist_order pls folder s.id
                  (dgetD changes s.id (get_playlist_order pls folder s.id)))
                (acts ++ [FsAction.rename s.id s.path
                  ⟨folder, String.mk (formatOrderName
                    (dgetD changes s.id (get_playlist_order pls folder s.id))
                    (originalNameOf s.path.base).data)⟩])
              with ⟨rest', pls₁, acts₁, e⟩
            rw [hrec] at hrun
            simp only [Prod.mk.injEq] at hrun
            obtain ⟨hrem', hpls', hacts', he⟩ := hrun
            subst hpls'
            subst he
            have heq_eff : ∀ t ∈ folderSongsOf rest folder,
                effOrderAt (update_playlist_order pls folder s.id
                  (dgetD changes s.id (get_playlist_order pls folder s.id)))
                  folder changes t = effOrderAt pls folder changes t := by
              intro t ht
              have htne : t.id ≠ s.id := by
                intro hcontra
                exact hnd.1 (hcontra ▸ List.mem_map_of_mem (fun u => u.id) ht)
              unfold effOrderAt
              rw [get_update_ne folder s.id _ folder t.id htne]
            obtain ⟨ih1, ih2, ih3⟩ := ih rest' _ _ _ _ hnd.2 hrec
            subst hrem'
            rw [folderSongsOf_cons_pos _ _ _ (by
              show FPath.dir ⟨folder, _⟩ = folder
              rfl)]
            refine ⟨?_, ?_, ?_⟩
            · rw [List.map_cons, List.filter_cons]
              rw [if_pos (by simpa using hdisab)]
              rw [List.map_cons]
              have hfiltercong : (folderSongsOf rest folder).filter
                  (fun t => decide (effOrderAt (update_playlist_order pls folder
                    s.id (dgetD changes s.id (get_playlist_order pls folder s.id)))
                    folder changes t ≠ -1)) =
                  (folderSongsOf rest folder).filter
                  (fun t => decide (effOrderAt pls folder changes t ≠ -1)) := by
                apply List.filter_congr
                intro t ht
                rw [heq_eff t ht]
              rw [hfiltercong] at ih1
              rw [ih1]
            · intro id hid
              simp only [List.map_cons, List.mem_cons, not_or] at hid
              rw [ih2 id hid.2, get_update_ne folder s.id _ folder id hid.1]
            · intro t ht hefft
              rcases List.mem_cons.mp ht with h | h
              · subst h
                rw [ih2 t.id hnd.1, get_update_self folder t.id _ pls]
                rfl
              · have hval := ih3 t h (by rw [heq_eff t h]; exact hefft)
                rw [heq_eff t h] at hval
                exact hval
    · rw [folderSongsOf_cons_neg s rest folder hdir] at hnd ⊢
      simp only [inplaceLoop] at hrun
      rw [if_neg hdir] at hrun
      rcases hrec : inplaceLoop ioFail tagRes folder changes rest pls acts
        with ⟨rest', pls₁, acts₁, e⟩
      rw [hrec] at hrun
      simp only [Prod.mk.injEq] at hrun
      obtain ⟨hrem', hpls', hacts', he⟩ := hrun
      subst hpls'
      subst he
      obtain ⟨ih1, ih2, ih3⟩ := ih rest' pls _ _ _ hnd hrec
      subst hrem'
      rw [folderSongsOf_cons_neg s rest' folder hdir]
      exact ⟨ih1, ih2, ih3⟩

/-- Filtering and mapping through a projection commutes with doing it on
the projected list. -/
theorem map_filter_through {α β γ : Type} (f : α → β) (q : β → Bool)
    (h : β → γ) :
    ∀ l : List α, ((l.filter (fun s => q (f s))).map (fun s => h (f s))) =
      ((l.map f).filter q).map h := by
  intro l
  induction l with
  | nil => rfl
  | cons a l' ih =>
    by_cases ha : q (f a)
    · simp [List.filter_cons, ha, ih]
    · simp [List.filter_cons, ha, ih]

/-- C1, corrected form.  With pairwise-distinct ids among the folder's
songs, and **provided** the effective staged orders of the folder's
effectively-enabled songs already form a permutation of `1..N` (N their
count), an in-place apply that completes without error leaves the
folder's enabled songs carrying order values that are exactly a
permutation of `1..N`: apply realises the staged assignment, so the
`{1..N}` invariant holds exactly when the staged map satisfies it. -/
theorem claim_C1_amended (ioFail : String → Bool) (tagRes : String → TagRes)
    (songs : List SongRec) (pls : List PlaylistEntry) (folder : String)
    (changes : Changes)
    (hnd : ((folderSongsOf songs folder).map (fun s => s.id)).Nodup)
    (heff : (((folderSongsOf songs folder).filter
        (fun s => decide (effOrderAt pls folder changes s ≠ -1))).map
        (fun s => effOrderAt pls folder changes s)).Perm
      ((List.range ((folderSongsOf songs folder).filter
        (fun s => decide (effOrderAt pls folder changes s ≠ -1))).length).map
        (fun i => (i : Int) + 1)))
    (hsucc : (apply_changes_inplace ioFail tagRes songs pls folder changes).err =
      none) :
    (((folderSongsOf (apply_changes_inplace ioFail tagRes songs pls folder
        changes).songsDb folder).filter (fun s =>
        decide (get_playlist_order (apply_changes_inplace ioFail tagRes songs
          pls folder changes).pls folder s.id ≠ -1))).map
      (fun s => get_playlist_order (apply_changes_inplace ioFail tagRes songs
        pls folder changes).pls folder s.id)).Perm
    ((List.range ((folderSongsOf songs folder).filter
      (fun s => decide (effOrderAt pls folder changes s ≠ -1))).length).map
      (fun i => (i : Int) + 1)) := by
  by_cases hch : changes = []
  · subst hch
    have hres : apply_changes_inplace ioFail tagRes songs pls folder [] =
        ⟨songs, pls, [], [], none⟩ := by
      unfold apply_changes_inplace
      rw [if_pos rfl]
    rw [hres]
    exact heff
  · have hres0 : apply_changes_inplace ioFail tagRes songs pls folder changes =
        match inplaceLoop ioFail tagRes folder changes songs pls [] with
        | (songs', pls', acts, none) => ⟨songs', pls', [], acts, none⟩
        | (_, pls', acts, some e) => ⟨songs, pls', changes, acts, some e⟩ := by
      unfold apply_changes_inplace
      rw [if_neg hch]
    rcases hrec : inplaceLoop ioFail tagRes folder changes songs pls []
      with ⟨songs', pls', acts, e⟩
    rw [hrec] at hres0
    cases e with
    | some err =>
      rw [hres0] at hsucc
      cases hsucc
    | none =>
      rw [hres0]
      obtain ⟨ih1, ih2, ih3⟩ := inplaceLoop_success ioFail tagRes folder changes
        songs songs' pls pls' [] acts hnd hrec
      have hmemeff : ∀ s ∈ (folderSongsOf songs folder).filter
          (fun s => decide (effOrderAt pls folder changes s ≠ -1)),
          get_playlist_order pls' folder s.id = effOrderAt pls folder changes s := by
        intro s hs
        rcases List.mem_filter.mp hs with ⟨hmem, hp⟩
        exact ih3 s hmem (of_decide_eq_true hp)
      have hLHS : ((folderSongsOf songs' folder).filter (fun s =>
          decide (get_playlist_order pls' folder s.id ≠ -1))).map
          (fun s => get_playlist_order pls' folder s.id) =
          ((folderSongsOf songs folder).filter
            (fun s => decide (effOrderAt pls folder changes s ≠ -1))).map
            (fun s => effOrderAt pls folder changes s) := by
        rw [map_filter_through (fun s => s.id)
          (fun i => decide (get_playlist_order pls' folder i ≠ -1))
          (fun i => get_playlist_order pls' folder i) (folderSongsOf songs' folder)]
        rw [ih1]
        rw [← map_filter_through (fun s : SongRec => s.id)
          (fun i => decide (get_playlist_order pls' folder i ≠ -1))
          (fun i => get_playlist_order pls' folder i)
          ((folderSongsOf songs folder).filter
            (fun s => decide (effOrderAt pls folder changes s ≠ -1)))]
        have hkeep : ((folderSongsOf songs folder).filter
            (fun s => decide (effOrderAt pls folder changes s ≠ -1))).filter
            (fun s => decide (get_playlist_order pls' folder s.id ≠ -1)) =
            (folderSongsOf songs folder).filter
            (fun s => decide (effOrderAt pls folder changes s ≠ -1)) := by
          apply List.filter_eq_self.mpr
          intro s hs
          rcases List.mem_filter.mp hs with ⟨_, hp⟩
          rw [hmemeff s hs]
          exact hp
        rw [hkeep]
        apply List.map_congr_left
        intro s hs
        exact hmemeff s hs
      rw [hLHS]
      exact heff

/-- C1 counterexample.  Starting from the clean three-song state, the
staging sequence "disable C, then set A's order to 3" (both ordinary UI
actions; the spin box allows 3 because the table still lists three rows)
yields the staged map `{C: -1, A: 3, B: 1}`; apply-in-place completes
without error and leaves the folder's two enabled songs with order set
`{1, 3}` — not `{1..2}`: the claimed invariant fails. -/
theorem claim_C1_counterexample :
    (apply_changes_inplace ioOk tagOk songsABC plsABC exFolder c1CxChanges).err =
      none ∧
    ((folderSongsOf (apply_changes_inplace ioOk tagOk songsABC plsABC exFolder
        c1CxChanges).songsDb exFolder).filter (fun s =>
        decide (get_playlist_order (apply_changes_inplace ioOk tagOk songsABC
          plsABC exFolder c1CxChanges).pls exFolder s.id ≠ -1))).map
      (fun s => get_playlist_order (apply_changes_inplace ioOk tagOk songsABC
        plsABC exFolder c1CxChanges).pls exFolder s.id) = [3, 1] ∧
    ¬ (([3, 1] : List Int).Perm ((List.range 2).map (fun i => (i : Int) + 1))) := by
  refine ⟨by decide, by decide, by decide⟩

/-- Witness for C1's corrected theorem at the disable-B scenario: the
staged map `{B: -1, C: 2}` has enabled effective orders `[1, 2]` (a
permutation of `1..2`), the run succeeds, and the folder's enabled orders
afterwards are a permutation of `1..2`. -/
theorem claim_C1_amended_witness :
    ((folderSongsOf songsABC exFolder).map (fun s => s.id)).Nodup ∧
    (((folderSongsOf (apply_changes_inplace ioOk tagOk songsABC plsABC exFolder
        c7Changes).songsDb exFolder).filter (fun s =>
        decide (get_playlist_order (apply_changes_inplace ioOk tagOk songsABC
          plsABC exFolder c7Changes).pls exFolder s.id ≠ -1))).map
      (fun s => get_playlist_order (apply_changes_inplace ioOk tagOk songsABC
        plsABC exFolder c7Changes).pls exFolder s.id)).Perm
    ((List.range ((folderSongsOf songsABC exFolder).filter
      (fun s => decide (effOrderAt plsABC exFolder c7Changes s ≠ -1))).length).map
      (fun i => (i : Int) + 1)) :=
  ⟨by decide, claim_C1_amended ioOk tagOk songsABC plsABC exFolder c7Changes
    (by decide) (by decide) (by decide)⟩

/-! ## Claim C2: behaviour of a failing apply run -/

/-- If some folder song's file operation fails, the in-place loop ends in
an error (either that one, or an earlier one). -/
theorem inplaceLoop_fails (ioFail : String → Bool) (tagRes : String → TagRes)
    (folder : String) (changes : Changes) :
    ∀ (rem : List SongRec) (pls : List PlaylistEntry) (acts : List FsAction)
      (s : SongRec), s ∈ rem → s.path.dir = folder → ioFail s.id = true →
      (inplaceLoop ioFail tagRes folder changes rem pls acts).2.2.2.isSome := by
  intro rem
  induction rem with
  | nil => intro pls acts s hs _ _; cases hs
  | cons t rest ih =>
    intro pls acts s hs hdir hfail
    rcases List.mem_cons.mp hs with h | h
    · subst h
      simp only [inplaceLoop]
      rw [if_pos hdir]
      by_cases hdisab : effOrderAt pls folder changes s = -1
      · rw [if_pos ((isDisabled_iff pls folder changes s).mpr hdisab),
          if_pos (by simp [hfail])]
        rfl
      · rw [if_neg (fun hcontra =>
            hdisab ((isDisabled_iff pls folder changes s).mp hcontra)),
          if_pos (by simp [hfail])]
        rfl
    · by_cases htdir : t.path.dir = folder
      · simp only [inplaceLoop]
        rw [if_pos htdir]
        by_cases hdisab : effOrderAt pls folder changes t = -1
        · rw [if_pos ((isDisabled_iff pls folder changes t).mpr hdisab)]
          by_cases hio : ioFail t.id
          · rw [if_pos hio]; rfl
          · rw [if_neg hio]
            rcases hrec : inplaceLoop ioFail tagRes folder changes rest pls
                (acts ++ [FsAction.move t.id t.path ⟨disabledDirOf folder, t.path.base⟩])
              with ⟨a, b, c, e⟩
            have := ih pls (acts ++ [FsAction.move t.id t.path
              ⟨disabledDirOf folder, t.path.base⟩]) s h hdir hfail
            rw [hrec] at this
            exact this
        · rw [if_neg (fun hcontra =>
            hdisab ((isDisabled_iff pls folder changes t).mp hcontra))]
          by_cases hio : ioFail t.id
          · rw [if_pos hio]; rfl
          · rw [if_neg hio]
            by_cases htag : tagRes t.id = TagRes.saveError
            · rw [if_pos htag]; rfl
            · rw [if_neg htag]
              rcases hrec : inplaceLoop ioFail tagRes folder changes rest
                  (update_playlist_order pls folder t.id
                    (dgetD changes t.id (get_playlist_order pls folder t.id)))
                  (acts ++ [FsAction.rename t.id t.path
                    ⟨folder, String.mk (formatOrderName
                      (dgetD changes t.id (get_playlist_order pls folder t.id))
                      (originalNameOf t.path.base).data)⟩])
                with ⟨a, b, c, e⟩
              have := ih (update_playlist_order pls folder t.id
                  (dgetD changes t.id (get_playlist_order pls folder t.id)))
                (acts ++ [FsAction.rename t.id t.path
                  ⟨folder, String.mk (formatOrderName
                    (dgetD changes t.id (get_playlist_order pls folder t.id))
                    (originalNameOf t.path.base).data)⟩]) s h hdir hfail
              rw [hrec] at this
              exact this
      · simp only [inplaceLoop]
        rw [if_neg htdir]
        rcases hrec : inplaceLoop ioFail tagRes folder changes rest pls acts
          with ⟨a, b, c, e⟩
        have := ih pls acts s h hdir hfail
        rw [hrec] at this
        exact this

/-- C2, corrected form.  When a folder song's file operation fails, the
in-place apply aborts with an error; the order entries persisted before
the failure stand (they were saved per song), **but** the songs database
keeps its pre-run contents (record changes of already-processed songs are
discarded, since `songs.json` is only saved after the loop) and the
staged map is left containing *all* its entries, processed ones included
(it is cleared only on success). -/
theorem claim_C2_amended (ioFail : String → Bool) (tagRes : String → TagRes)
    (songs : List SongRec) (pls : List PlaylistEntry) (folder : String)
    (changes : Changes) (s : SongRec)
    (hch : changes ≠ []) (hmem : s ∈ songs) (hdir : s.path.dir = folder)
    (hfail : ioFail s.id = true) :
    (apply_changes_inplace ioFail tagRes songs pls folder changes).err.isSome ∧
    (apply_changes_inplace ioFail tagRes songs pls folder changes).changes =
      changes ∧
    (apply_changes_inplace ioFail tagRes songs pls folder changes).songsDb =
      songs := by
  have hloop := inplaceLoop_fails ioFail tagRes folder changes songs pls [] s
    hmem hdir hfail
  unfold apply_changes_inplace
  rw [if_neg hch]
  rcases hrec : inplaceLoop ioFail tagRes folder changes songs pls []
    with ⟨a, b, c, e⟩
  rw [hrec] at hloop
  cases e with
  | none => simp at hloop
  | some err => exact ⟨rfl, rfl, rfl⟩

/-- C2 counterexample.  Two songs A, B with staged map `{B: 1, A: 2}`;
the rename of B (processed second) fails.  The run errors out, yet the
staged map still contains the *processed* entry `A: 2` (not only the
unprocessed remainder), A's on-disk rename did happen and its order
entry was persisted, while the saved songs database still carries A's
old name — so "already-processed songs are fully committed and the
staged map holds only the remainder" is false on both counts. -/
theorem claim_C2_counterexample :
    (apply_changes_inplace (ioFailOn "ID0001") tagOk songsAB plsAB exFolder
      abChanges).err = some (ApplyErr.ioErr "ID0001") ∧
    dget (apply_changes_inplace (ioFailOn "ID0001") tagOk songsAB plsAB exFolder
      abChanges).changes "ID0000" = some 2 ∧
    FsAction.rename "ID0000" ⟨"/music/pl", "001 A.mp3"⟩
        ⟨"/music/pl", "002 A.mp3"⟩ ∈
      (apply_changes_inplace (ioFailOn "ID0001") tagOk songsAB plsAB exFolder
        abChanges).actions ∧
    (apply_changes_inplace (ioFailOn "ID0001") tagOk songsAB plsAB exFolder
      abChanges).songsDb = songsAB ∧
    get_playlist_order (apply_changes_inplace (ioFailOn "ID0001") tagOk songsAB
      plsAB exFolder abChanges).pls exFolder "ID0000" = 2 := by
  refine ⟨by decide, by decide, by decide, by decide, by decide⟩

/-- Witness for C2's corrected theorem at the same concrete failing run. -/
theorem claim_C2_amended_witness :
    (apply_changes_inplace (ioFailOn "ID0001") tagOk songsAB plsAB exFolder
      abChanges).err.isSome ∧
    (apply_changes_inplace (ioFailOn "ID0001") tagOk songsAB plsAB exFolder
      abChanges).changes = abChanges ∧
    (apply_changes_inplace (ioFailOn "ID0001") tagOk songsAB plsAB exFolder
      abChanges).songsDb = songsAB :=
  claim_C2_amended (ioFailOn "ID0001") tagOk songsAB plsAB exFolder abChanges
    ⟨"ID0001", "002 B.mp3", ⟨"/music/pl", "002 B.mp3"⟩, "X", 2⟩
    (by decide) (by decide) (by decide) (by decide)

/-! ## Claim C8: tag failures during apply -/

/-- Order lookups of ids not among the walked folder songs are unchanged
by the in-place loop, whether or not it errors. -/
theorem inplaceLoop_pls_frame (ioFail : String → Bool) (tagRes : String → TagRes)
    (folder : String) (changes : Changes) :
    ∀ (rem : List SongRec) (pls : List PlaylistEntry) (acts : List FsAction)
      (id : String), id ∉ (folderSongsOf rem folder).map (fun s => s.id) →
      get_playlist_order
          (inplaceLoop ioFail tagRes folder changes rem pls acts).2.1 folder id =
        get_playlist_order pls folder id := by
  intro rem
  induction rem with
  | nil => intro pls acts id _; rfl
  | cons t rest ih =>
    intro pls acts id hid
    by_cases htdir : t.path.dir = folder
    · rw [folderSongsOf_cons_pos t rest folder htdir, List.map_cons,
        List.mem_cons, not_or] at hid
      simp only [inplaceLoop]
      rw [if_pos htdir]
      by_cases hdisab : effOrderAt pls folder changes t = -1
      · rw [if_pos ((isDisabled_iff pls folder changes t).mpr hdisab)]
        by_cases hio : ioFail t.id
        · rw [if_pos hio]
        · rw [if_neg hio]
          rcases hrec : inplaceLoop ioFail tagRes folder changes rest pls
              (acts ++ [FsAction.move t.id t.path ⟨disabledDirOf folder, t.path.base⟩])
            with ⟨a, b, c, e⟩
          have := ih pls (acts ++ [FsAction.move t.id t.path
            ⟨disabledDirOf folder, t.path.base⟩]) id hid.2
          rw [hrec] at this
          exact this
      · rw [if_neg (fun hcontra =>
          hdisab ((isDisabled_iff pls folder changes t).mp hcontra))]
        by_cases hio : ioFail t.id
        · rw [if_pos hio]
        · rw [if_neg hio]
          by_cases htag : tagRes t.id = TagRes.saveError
          · rw [if_pos htag]
          · rw [if_neg htag]
            rcases hrec : inplaceLoop ioFail tagRes folder changes rest
                (update_playlist_order pls folder t.id
                  (dgetD changes t.id (get_playlist_order pls folder t.id)))
                (acts ++ [FsAction.rename t.id t.path
                  ⟨folder, String.mk (formatOrderName
                    (dgetD changes t.id (get_playlist_order pls folder t.id))
                    (originalNameOf t.path.base).data)⟩])
              with ⟨a, b, c, e⟩
            have hframe := ih (update_playlist_order pls folder t.id
                (dgetD changes t.id (get_playlist_order pls folder t.id)))
              (acts ++ [FsAction.rename t.id t.path
                ⟨folder, String.mk (formatOrderName
                  (dgetD changes t.id (get_playlist_order pls folder t.id))
                  (originalNameOf t.path.base).data)⟩]) id hid.2
            rw [hrec] at hframe
            exact hframe.trans (get_update_ne folder t.id
              (dgetD changes t.id (get_playlist_order pls folder t.id))
              folder id hid.1 pls)
    · rw [folderSongsOf_cons_neg t rest folder htdir] at hid
      simp only [inplaceLoop]
      rw [if_neg htdir]
      rcases hrec : inplaceLoop ioFail tagRes folder changes rest pls acts
        with ⟨a, b, c, e⟩
      have := ih pls acts id hid
      rw [hrec] at this
      exact this

/-- C8, corrected form, for a run whose first database song `s` is an
enabled folder song with a working file operation.  (a) If the title-tag
save of `s` fails, the whole apply aborts with `TagError` **before** the
song's order entry is committed, the songs database is not saved, and the
staged map survives — the failure is *not* recovered locally.  (b) Only
when the tag rewrite does not raise on save — including the recovered
missing-header case `ID3NoHeaderError` — is the song's order entry
committed (with its staged effective order), and it stays committed no
matter what happens to the remaining songs. -/
theorem claim_C8_amended (ioFail : String → Bool) (tagRes : String → TagRes)
    (s : SongRec) (rest : List SongRec) (pls : List PlaylistEntry)
    (folder : String) (changes : Changes)
    (hch : changes ≠ []) (hdir : s.path.dir = folder)
    (heff : effOrderAt pls folder changes s ≠ -1)
    (hio : ioFail s.id = false)
    (hrest : s.id ∉ (folderSongsOf rest folder).map (fun t => t.id)) :
    (tagRes s.id = TagRes.saveError →
      (apply_changes_inplace ioFail tagRes (s :: rest) pls folder changes).err =
        some (ApplyErr.tagErr s.id) ∧
      (apply_changes_inplace ioFail tagRes (s :: rest) pls folder changes).pls =
        pls ∧
      (apply_changes_inplace ioFail tagRes (s :: rest) pls folder
        changes).songsDb = s :: rest ∧
      (apply_changes_inplace ioFail tagRes (s :: rest) pls folder
        changes).changes = changes) ∧
    (tagRes s.id ≠ TagRes.saveError →
      get_playlist_order (apply_changes_inplace ioFail tagRes (s :: rest) pls
          folder changes).pls folder s.id =
        effOrderAt pls folder changes s) := by
  unfold apply_changes_inplace
  rw [if_neg hch]
  constructor
  · intro htag
    have hloop : inplaceLoop ioFail tagRes folder changes (s :: rest) pls [] =
        ([], pls, [FsAction.rename s.id s.path
          ⟨folder, String.mk (formatOrderName
            (dgetD changes s.id (get_playlist_order pls folder s.id))
            (originalNameOf s.path.base).data)⟩],
          some (ApplyErr.tagErr s.id)) := by
      simp only [inplaceLoop]
      rw [if_pos hdir,
        if_neg (fun hcontra => heff ((isDisabled_iff pls folder changes s).mp hcontra)),
        if_neg (by simp [hio]), if_pos htag]
      rfl
    rw [hloop]
    exact ⟨rfl, rfl, rfl, rfl⟩
  · intro htag
    have hloop : inplaceLoop ioFail tagRes folder changes (s :: rest) pls [] =
        match inplaceLoop ioFail tagRes folder changes rest
            (update_playlist_order pls folder s.id
              (dgetD changes s.id (get_playlist_order pls folder s.id)))
            ([FsAction.rename s.id s.path
              ⟨folder, String.mk (formatOrderName
                (dgetD changes s.id (get_playlist_order pls folder s.id))
                (originalNameOf s.path.base).data)⟩]) with
        | (rest', pls'', acts'', e) =>
          ({ s with
              path := ⟨folder, String.mk (formatOrderName
                (dgetD changes s.id (get_playlist_order pls folder s.id))
                (originalNameOf s.path.base).data)⟩,
              name := String.mk (formatOrderName
                (dgetD changes s.id (get_playlist_order pls folder s.id))
                (originalNameOf s.path.base).data) } :: rest', pls'', acts'', e) := by
      simp only [inplaceLoop]
      rw [if_pos hdir,
        if_neg (fun hcontra => heff ((isDisabled_iff pls folder changes s).mp hcontra)),
        if_neg (by simp [hio]), if_neg htag]
      rfl
    have hframe := inplaceLoop_pls_frame ioFail tagRes folder changes rest
      (update_playlist_order pls folder s.id
        (dgetD changes s.id (get_playlist_order pls folder s.id)))
      ([FsAction.rename s.id s.path
        ⟨folder, String.mk (formatOrderName
          (dgetD changes s.id (get_playlist_order pls folder s.id))
          (originalNameOf s.path.base).data)⟩]) s.id hrest
    rcases hrec : inplaceLoop ioFail tagRes folder changes rest
        (update_playlist_order pls folder s.id
          (dgetD changes s.id (get_playlist_order pls folder s.id)))
        ([FsAction.rename s.id s.path
          ⟨folder, String.mk (formatOrderName
            (dgetD changes s.id (get_playlist_order pls folder s.id))
            (originalNameOf s.path.base).data)⟩])
      with ⟨rest', pls'', acts'', e⟩
    rw [hrec] at hloop hframe
    rw [hloop]
    cases e with
    | none =>
      show get_playlist_order pls'' folder s.id = _
      rw [hframe, get_update_self folder s.id _ pls]
      rfl
    | some err =>
      show get_playlist_order pls'' folder s.id = _
      rw [hframe, get_update_self folder s.id _ pls]
      rfl

/-- C8 counterexample.  In the two-song run with staged map `{B: 1, A: 2}`,
A's title-tag save fails: the whole apply aborts with a tag error (B is
never processed), A's on-disk rename already happened, but A's order
entry was **not** committed (it still reads 1, though 2 was staged): a
tag failure is neither recovered locally nor does the song's order change
commit. -/
theorem claim_C8_counterexample :
    (apply_changes_inplace ioOk (tagSaveErrOn "ID0000") songsAB plsAB exFolder
      abChanges).err = some (ApplyErr.tagErr "ID0000") ∧
    get_playlist_order (apply_changes_inplace ioOk (tagSaveErrOn "ID0000")
      songsAB plsAB exFolder abChanges).pls exFolder "ID0000" = 1 ∧
    dget abChanges "ID0000" = some 2 ∧
    FsAction.rename "ID0000" ⟨"/music/pl", "001 A.mp3"⟩
        ⟨"/music/pl", "002 A.mp3"⟩ ∈
      (apply_changes_inplace ioOk (tagSaveErrOn "ID0000") songsAB plsAB exFolder
        abChanges).actions ∧
    (apply_changes_inplace ioOk (tagSaveErrOn "ID0000") songsAB plsAB exFolder
      abChanges).actions.length = 1 := by
  refine ⟨by decide, by decide, by decide, by decide, by decide⟩

/-- Witness for C8's corrected theorem: (first conjunct) the failing-tag
run aborts uncommitted; (second) a run whose tag rewrite hits only the
recovered `ID3NoHeaderError` still commits the song's staged order. -/
theorem claim_C8_amended_witness :
    ((apply_changes_inplace ioOk (tagSaveErrOn "ID0000")
        (⟨"ID0000", "001 A.mp3", ⟨"/music/pl", "001 A.mp3"⟩, "X", 2⟩ ::
          [⟨"ID0001", "002 B.mp3", ⟨"/music/pl", "002 B.mp3"⟩, "X", 2⟩]) plsAB
        exFolder abChanges).err = some (ApplyErr.tagErr "ID0000") ∧
      (apply_changes_inplace ioOk (tagSaveErrOn "ID0000")
        (⟨"ID0000", "001 A.mp3", ⟨"/music/pl", "001 A.mp3"⟩, "X", 2⟩ ::
          [⟨"ID0001", "002 B.mp3", ⟨"/music/pl", "002 B.mp3"⟩, "X", 2⟩]) plsAB
        exFolder abChanges).pls = plsAB ∧
      (apply_changes_inplace ioOk (tagSaveErrOn "ID0000")
        (⟨"ID0000", "001 A.mp3", ⟨"/music/pl", "001 A.mp3"⟩, "X", 2⟩ ::
          [⟨"ID0001", "002 B.mp3", ⟨"/music/pl", "002 B.mp3"⟩, "X", 2⟩]) plsAB
        exFolder abChanges).songsDb =
        ⟨"ID0000", "001 A.mp3", ⟨"/music/pl", "001 A.mp3"⟩, "X", 2⟩ ::
          [⟨"ID0001", "002 B.mp3", ⟨"/music/pl", "002 B.mp3"⟩, "X", 2⟩] ∧
      (apply_changes_inplace ioOk (tagSaveErrOn "ID0000")
        (⟨"ID0000", "001 A.mp3", ⟨"/music/pl", "001 A.mp3"⟩, "X", 2⟩ ::
          [⟨"ID0001", "002 B.mp3", ⟨"/music/pl", "002 B.mp3"⟩, "X", 2⟩]) plsAB
        exFolder abChanges).changes = abChanges) ∧
    get_playlist_order (apply_changes_inplace ioOk (tagNoHeaderOn "ID0000")
        (⟨"ID0000", "001 A.mp3", ⟨"/music/pl", "001 A.mp3"⟩, "X", 2⟩ ::
          [⟨"ID0001", "002 B.mp3", ⟨"/music/pl", "002 B.mp3"⟩, "X", 2⟩]) plsAB
        exFolder abChanges).pls exFolder "ID0000" =
      effOrderAt plsAB exFolder abChanges
        ⟨"ID0000", "001 A.mp3", ⟨"/music/pl", "001 A.mp3"⟩, "X", 2⟩ :=
  ⟨(claim_C8_amended ioOk (tagSaveErrOn "ID0000")
      ⟨"ID0000", "001 A.mp3", ⟨"/music/pl", "001 A.mp3"⟩, "X", 2⟩
      [⟨"ID0001", "002 B.mp3", ⟨"/music/pl", "002 B.mp3"⟩, "X", 2⟩] plsAB
      exFolder abChanges (by decide) (by decide) (by decide) (by decide)
      (by decide)).1 (by decide),
    (claim_C8_amended ioOk (tagNoHeaderOn "ID0000")
      ⟨"ID0000", "001 A.mp3", ⟨"/music/pl", "001 A.mp3"⟩, "X", 2⟩
      [⟨"ID0001", "002 B.mp3", ⟨"/music/pl", "002 B.mp3"⟩, "X", 2⟩] plsAB
      exFolder abChanges (by decide) (by decide) (by decide) (by decide)
      (by decide)).2 (by decide)⟩

/-! ## Claim C7 witness (staging plus apply) -/

/-- Witness for C7's corrected theorem: the claim's own concrete scenario.
Disabling B in `[001 A, 002 B, 003 C]` stages (first conjunct, by the
corrected theorem) every selected song as `DISABLED`; the staged map is
effectively `{A: 1 (unstaged, stored), B: -1, C: 2}`; the claim as stated
holds at this input (database order = order-relative order); and applying
in place succeeds, renames `003 C.mp3` to `002 C.mp3`, and moves B —
name unchanged — into the `Disabled` subfolder. -/
theorem claim_C7_amended_witness :
    (∀ sid ∈ (["ID0001"] : List String),
      dget (disable_selected_songs songsABC plsABC exFolder ["ID0001"] []) sid =
        some (-1)) ∧
    dget c7Changes "ID0000" = none ∧
    dget c7Changes "ID0002" = some 2 ∧
    claimC7Holds songsABC plsABC exFolder ["ID0001"] [] ∧
    (apply_changes_inplace ioOk tagOk songsABC plsABC exFolder c7Changes).err =
      none ∧
    (apply_changes_inplace ioOk tagOk songsABC plsABC exFolder
      c7Changes).songsDb =
      [⟨"ID0000", "001 A.mp3", ⟨"/music/pl", "001 A.mp3"⟩, "X", 2⟩,
       ⟨"ID0001", "002 B.mp3", ⟨"/music/pl/Disabled", "002 B.mp3"⟩, "X", 2⟩,
       ⟨"ID0002", "002 C.mp3", ⟨"/music/pl", "002 C.mp3"⟩, "Y", 2⟩] ∧
    FsAction.rename "ID0002" ⟨"/music/pl", "003 C.mp3"⟩
        ⟨"/music/pl", "002 C.mp3"⟩ ∈
      (apply_changes_inplace ioOk tagOk songsABC plsABC exFolder
        c7Changes).actions ∧
    FsAction.move "ID0001" ⟨"/music/pl", "002 B.mp3"⟩
        ⟨"/music/pl/Disabled", "002 B.mp3"⟩ ∈
      (apply_changes_inplace ioOk tagOk songsABC plsABC exFolder
        c7Changes).actions :=
  ⟨(claim_C7_amended songsABC plsABC exFolder ["ID0001"] [] (by decide)
      (by decide)).1,
    by decide, by decide, by unfold claimC7Holds; decide, by decide, by decide,
    by decide, by decide⟩

/-! ## Claim C9: copy mode skips disabled songs -/

/-- Whatever the id scan returns is not among the used ids. -/
theorem genIdScan_not_used (used : List String) :
    ∀ (fuel i : Nat) (nid : String),
      genIdScan used fuel i = some nid → nid ∉ used := by
  intro fuel
  induction fuel with
  | zero => intro i nid h; cases h
  | succ fuel ih =>
    intro i nid h
    unfold genIdScan at h
    by_cases hmem : idString i ∈ used
    · rw [if_pos hmem] at h
      exact ih (i + 1) nid h
    · rw [if_neg hmem] at h
      exact (Option.some.inj h) ▸ hmem

/-- A freshly generated id is not among the used ones. -/
theorem generateNewId_not_used (used : List String) (nid : String)
    (h : generateNewId used = some nid) : nid ∉ used := by
  unfold generateNewId at h
  exact genIdScan_not_used used 10000 0 nid h

/-- The copy loop never touches a song id whose effective staged order is
`DISABLED`: no action is performed for it, its order entries (in every
playlist) stay as they are, and no new record carries its id. -/
theorem copyLoop_disabled_frame (ioFail : String → Bool) (tagRes : String → TagRes)
    (folder targetDir : String) (changes : Changes) (songs : List SongRec)
    (sid : String) (hsid : sid ∈ songs.map (fun t => t.id)) :
    ∀ (rem newSongs : List SongRec) (pls : List PlaylistEntry)
      (acts : List FsAction),
      dgetD changes sid (get_playlist_order pls folder sid) = -1 →
      (∀ a ∈ (copyLoop ioFail tagRes folder targetDir changes songs rem newSongs
        pls acts).2.2.1, a ∈ acts ∨ actionSrc a ≠ sid) ∧
      entriesForId (copyLoop ioFail tagRes folder targetDir changes songs rem
        newSongs pls acts).2.1 sid = entriesForId pls sid ∧
      (∀ t ∈ (copyLoop ioFail tagRes folder targetDir changes songs rem newSongs
        pls acts).1, t ∈ newSongs ∨ t.id ≠ sid) := by
  intro rem
  induction rem with
  | nil =>
    intro newSongs pls acts _
    exact ⟨fun a ha => Or.inl ha, rfl, fun t ht => Or.inl ht⟩
  | cons t rest ih =>
    intro newSongs pls acts heff
    by_cases htdir : t.path.dir = folder
    · simp only [copyLoop]
      rw [if_pos htdir]
      by_cases hdisab : dgetD changes t.id (get_playlist_order pls folder t.id) =
          -1 ∨ (dget changes t.id = none ∧ get_playlist_order pls folder t.id = -1)
      · rw [if_pos hdisab]
        exact ih newSongs pls acts heff
      · rw [if_neg hdisab]
        have htne : t.id ≠ sid := by
          intro hcontra
          exact hdisab (Or.inl (hcontra ▸ heff))
        by_cases hio : ioFail t.id
        · rw [if_pos hio]
          exact ⟨fun a ha => Or.inl ha, rfl, fun u hu => Or.inl hu⟩
        · rw [if_neg hio]
          split
          · refine ⟨?_, rfl, fun u hu => Or.inl hu⟩
            intro a ha
            rcases List.mem_append.mp ha with h | h
            · exact Or.inl h
            · right
              rcases List.mem_singleton.mp h with rfl
              exact htne
          · rename_i newId hgen
            have hnewne : newId ≠ sid := by
              intro hcontra
              subst hcontra
              exact generateNewId_not_used _ _ hgen
                (List.mem_append.mpr (Or.inl hsid))
            by_cases htag : tagRes t.id = TagRes.saveError
            · rw [if_pos htag]
              refine ⟨?_, rfl, ?_⟩
              · intro a ha
                rcases List.mem_append.mp ha with h | h
                · exact Or.inl h
                · right
                  rcases List.mem_singleton.mp h with rfl
                  exact htne
              · intro u hu
                rcases List.mem_append.mp hu with h | h
                · exact Or.inl h
                · right
                  rcases List.mem_singleton.mp h with rfl
                  exact hnewne
            · rw [if_neg htag]
              have heff' : dgetD changes sid
                  (get_playlist_order (update_playlist_order pls targetDir newId
                    (dgetD changes t.id (get_playlist_order pls folder t.id)))
                    folder sid) = -1 := by
                rw [get_update_ne targetDir newId _ folder sid
                  (fun hcontra => hnewne hcontra.symm)]
                exact heff
              obtain ⟨iha, ihe, ihn⟩ := ih (newSongs ++
                  [⟨newId, String.mk (formatOrderName
                    (dgetD changes t.id (get_playlist_order pls folder t.id))
                    (originalNameOf t.path.base).data),
                    ⟨targetDir, String.mk (formatOrderName
                      (dgetD changes t.id (get_playlist_order pls folder t.id))
                      (originalNameOf t.path.base).data)⟩, t.series, t.weight⟩])
                (update_playlist_order pls targetDir newId
                  (dgetD changes t.id (get_playlist_order pls folder t.id)))
                (acts ++ [FsAction.copy t.id t.path
                  ⟨targetDir, String.mk (formatOrderName
                    (dgetD changes t.id (get_playlist_order pls folder t.id))
                    (originalNameOf t.path.base).data)⟩]) heff'
              refine ⟨?_, ?_, ?_⟩
              · intro a ha
                rcases iha a ha with h | h
                · rcases List.mem_append.mp h with h' | h'
                  · exact Or.inl h'
                  · right
                    rcases List.mem_singleton.mp h' with rfl
                    exact htne
                · exact Or.inr h
              · rw [ihe, entriesForId_update_ne targetDir newId _ sid
                  (fun hcontra => hnewne hcontra.symm)]
              · intro u hu
                rcases ihn u hu with h | h
                · rcases List.mem_append.mp h with h' | h'
                  · exact Or.inl h'
                  · right
                    rcases List.mem_singleton.mp h' with rfl
                    exact hnewne
                · exact Or.inr h
    · simp only [copyLoop]
      rw [if_neg htdir]
      exact ih newSongs pls acts heff

/-- C9, confirmed.  During a copy-mode apply, every database song of the
folder whose effective staged order is `DISABLED` is skipped entirely: no
file action is performed for its id, its order entries in every playlist
are untouched, and the saved songs database is the old one plus newly
minted records none of which carries its id (so its own record, path
included, survives verbatim). -/
theorem claim_C9_copy_skips_disabled (ioFail : String → Bool)
    (tagRes : String → TagRes) (songs : List SongRec)
    (pls : List PlaylistEntry) (folder targetDir : String) (changes : Changes)
    (s : SongRec) (hmem : s ∈ songs)
    (heff : effOrderAt pls folder changes s = -1) :
    (∀ a ∈ (apply_changes_copy ioFail tagRes songs pls folder targetDir
      changes).actions, actionSrc a ≠ s.id) ∧
    entriesForId (apply_changes_copy ioFail tagRes songs pls folder targetDir
      changes).pls s.id = entriesForId pls s.id ∧
    (∃ tail, (apply_changes_copy ioFail tagRes songs pls folder targetDir
        changes).songsDb = songs ++ tail ∧
      ∀ t ∈ tail, t.id ≠ s.id) := by
  have hsid : s.id ∈ songs.map (fun t => t.id) :=
    List.mem_map_of_mem (fun t => t.id) hmem
  unfold apply_changes_copy
  by_cases hch : changes = []
  · rw [if_pos hch]
    exact ⟨fun a ha => absurd ha (by simp), rfl,
      ⟨[], by simp, fun t ht => absurd ht (by simp)⟩⟩
  · rw [if_neg hch]
    obtain ⟨ha, he, hn⟩ := copyLoop_disabled_frame ioFail tagRes folder targetDir
      changes songs s.id hsid songs [] pls [] heff
    rcases hrec : copyLoop ioFail tagRes folder targetDir changes songs songs []
      pls [] with ⟨ns, pls', acts, e⟩
    rw [hrec] at ha he hn
    cases e with
    | none =>
      refine ⟨?_, he, ⟨ns, rfl, ?_⟩⟩
      · intro a haa
        rcases ha a haa with h | h
        · cases h
        · exact h
      · intro t ht
        rcases hn t ht with h | h
        · cases h
        · exact h
    | some err =>
      refine ⟨?_, he, ⟨[], by simp, fun t ht => absurd ht (by simp)⟩⟩
      intro a haa
      rcases ha a haa with h | h
      · cases h
      · exact h

/-- Witness for C9 at the disable-B staged map: copying the three-song
folder to a new directory performs no action for B, leaves B's order
entries untouched, and appends only fresh-id records. -/
theorem claim_C9_copy_skips_disabled_witness :
    (∀ a ∈ (apply_changes_copy ioOk tagOk songsABC plsABC exFolder "/music/new"
      c7Changes).actions, actionSrc a ≠ "ID0001") ∧
    entriesForId (apply_changes_copy ioOk tagOk songsABC plsABC exFolder
      "/music/new" c7Changes).pls "ID0001" = entriesForId plsABC "ID0001" ∧
    (∃ tail, (apply_changes_copy ioOk tagOk songsABC plsABC exFolder
        "/music/new" c7Changes).songsDb = songsABC ++ tail ∧
      ∀ t ∈ tail, t.id ≠ "ID0001") :=
  claim_C9_copy_skips_disabled ioOk tagOk songsABC plsABC exFolder "/music/new"
    c7Changes ⟨"ID0001", "002 B.mp3", ⟨"/music/pl", "002 B.mp3"⟩, "X", 2⟩
    (by decide) (by decide)

/-! ## Claim C3: the Shuffler output is a permutation -/

theorem length_setAt (result : List (Option SongRec)) (pos : Nat) (s : SongRec) :
    (setAt result pos s).length = result.length := by
  simp [setAt]

theorem somes_setAt (s : SongRec) :
    ∀ (result : List (Option SongRec)) (pos : Nat), pos < result.length →
      result.getD pos none = none →
      (somes (setAt result pos s)).Perm (s :: somes result) := by
  intro result
  induction result with
  | nil => intro pos h; cases h
  | cons a l ih =>
    intro pos hlt hnone
    cases pos with
    | zero =>
      have ha : a = none := hnone
      subst ha
      simp [setAt, somes, List.filterMap_cons]
    | succ p =>
      have hlt' : p < l.length := Nat.lt_of_succ_lt_succ hlt
      have hnone' : l.getD p none = none := hnone
      have hih := ih p hlt' hnone'
      cases a with
      | none =>
        simpa [setAt, somes, List.filterMap_cons] using hih
      | some t =>
        have : somes (setAt (some t :: l) (p + 1) s) = t :: somes (setAt l p s) := by
          simp [setAt, somes, List.filterMap_cons]
        rw [this]
        have h2 : somes (some t :: l) = t :: somes l := by
          simp [somes, List.filterMap_cons]
        rw [h2]
        exact (hih.cons t).trans (List.Perm.swap s t (somes l))

theorem getD_setAt_self (result : List (Option SongRec)) (pos : Nat)
    (s : SongRec) (h : pos < result.length) :
    (setAt result pos s).getD pos none = some s := by
  simp [setAt, List.getD_eq_getElem?_getD, List.getElem?_set_self, h]

theorem mem_somes (s : SongRec) (result : List (Option SongRec)) :
    s ∈ somes result ↔ some s ∈ result := by
  simp [somes, List.mem_filterMap]

theorem posUsed_eq_none (result : List (Option SongRec)) (pos : Int)
    (h0 : 0 ≤ pos) (h : posUsed result pos = false) :
    result.getD pos.toNat none = none := by
  unfold posUsed optAt at h
  rw [if_pos h0] at h
  cases hx : result.getD pos.toNat none with
  | none => rfl
  | some t =>
    rw [hx] at h
    simp at h

theorem tryAt_some (result : List (Option SongRec)) (n : Nat) (pos : Int)
    (s : SongRec) (r : List (Option SongRec)) (hlen : result.length = n)
    (h : tryAt result n pos s = some r) :
    (somes r).Perm (s :: somes result) ∧ r.length = n := by
  unfold tryAt at h
  by_cases hc : 0 ≤ pos ∧ pos < (n : Int) ∧ posUsed result pos = false
  · rw [if_pos hc] at h
    by_cases hadj : adjacentClear result pos s.series = true
    · rw [if_pos hadj] at h
      have hr : r = setAt result pos.toNat s := (Option.some.inj h).symm
      subst hr
      have hplt : pos.toNat < result.length := by
        rw [hlen]
        omega
      refine ⟨somes_setAt s result pos.toNat hplt
        (posUsed_eq_none result pos hc.1 hc.2.2), ?_⟩
      rw [length_setAt, hlen]
    · rw [if_neg hadj] at h; cases h
  · rw [if_neg hc] at h; cases h

theorem posUsed_setAt_self (result : List (Option SongRec)) (pos : Int)
    (s : SongRec) (h0 : 0 ≤ pos) (h : pos.toNat < result.length) :
    posUsed (setAt result pos.toNat s) pos = true := by
  unfold posUsed optAt
  rw [if_pos h0, getD_setAt_self result pos.toNat s h]
  rfl

theorem tryAt_some_posUsed (result : List (Option SongRec)) (n : Nat)
    (pos : Int) (s : SongRec) (r : List (Option SongRec))
    (hlen : result.length = n) (h : tryAt result n pos s = some r) :
    posUsed r pos = true := by
  unfold tryAt at h
  by_cases hc : 0 ≤ pos ∧ pos < (n : Int) ∧ posUsed result pos = false
  · rw [if_pos hc] at h
    by_cases hadj : adjacentClear result pos s.series = true
    · rw [if_pos hadj] at h
      have hr : r = setAt result pos.toNat s := (Option.some.inj h).symm
      subst hr
      exact posUsed_setAt_self result pos s hc.1 (by rw [hlen]; omega)
    · rw [if_neg hadj] at h; cases h
  · rw [if_neg hc] at h; cases h

theorem tryOffsets_spec (result : List (Option SongRec)) (n : Nat)
    (target : Int) (radius : Nat) (s : SongRec) (hlen : result.length = n) :
    (tryOffsets result n target radius s).1.length = n ∧
      ((somes (tryOffsets result n target radius s).1).Perm (somes result) ∨
        (somes (tryOffsets result n target radius s).1).Perm (s :: somes result)) := by
  unfold tryOffsets
  rcases h0 : tryAt result n target s with _ | r0
  · rcases h1 : tryAt result n (target + radius) s with _ | r1
    · rcases h2 : tryAt result n (target - radius) s with _ | r2
      · exact ⟨hlen, Or.inl (List.Perm.refl _)⟩
      · have := tryAt_some result n _ s r2 hlen h2
        exact ⟨this.2, Or.inr this.1⟩
    · have := tryAt_some result n _ s r1 hlen h1
      exact ⟨this.2, Or.inr this.1⟩
  · have := tryAt_some result n _ s r0 hlen h0
    exact ⟨this.2, Or.inr this.1⟩

theorem tryOffsets_placed_or (result : List (Option SongRec)) (n : Nat)
    (target : Int) (radius : Nat) (s : SongRec) (hlen : result.length = n) :
    (tryOffsets result n target radius s).1 = result ∨
      posUsed (tryOffsets result n target radius s).1
        (tryOffsets result n target radius s).2 = true := by
  unfold tryOffsets
  rcases h0 : tryAt result n target s with _ | r0
  · rcases h1 : tryAt result n (target + radius) s with _ | r1
    · rcases h2 : tryAt result n (target - radius) s with _ | r2
      · exact Or.inl rfl
      · exact Or.inr (tryAt_some_posUsed result n _ s r2 hlen h2)
    · exact Or.inr (tryAt_some_posUsed result n _ s r1 hlen h1)
  · exact Or.inr (tryAt_some_posUsed result n _ s r0 hlen h0)

theorem radiusLoop_spec (n : Nat) (s : SongRec) (target : Int) :
    ∀ (fuel radius : Nat) (result : List (Option SongRec)),
      result.length = n →
      (radiusLoop n s target fuel radius result).length = n ∧
        ((somes (radiusLoop n s target fuel radius result)).Perm (somes result) ∨
          (somes (radiusLoop n s target fuel radius result)).Perm
            (s :: somes result)) := by
  intro fuel
  induction fuel with
  | zero => intro radius result hlen; exact ⟨hlen, Or.inl (List.Perm.refl _)⟩
  | succ fuel ih =>
    intro radius result hlen
    simp only [radiusLoop]
    by_cases hr : radius < n
    · rw [if_pos hr]
      by_cases hp : posUsed (tryOffsets result n target radius s).1
          (tryOffsets result n target radius s).2 = true
      · rw [if_pos hp]
        exact tryOffsets_spec result n target radius s hlen
      · rw [if_neg hp]
        have heq : (tryOffsets result n target radius s).1 = result := by
          rcases tryOffsets_placed_or result n target radius s hlen with h | h
          · exact h
          · exact absurd h hp
        rw [heq]
        exact ih (radius + 1) result hlen
    · rw [if_neg hr]
      exact ⟨hlen, Or.inl (List.Perm.refl _)⟩

theorem placeGroup_spec (n : Nat) :
    ∀ (ss : List SongRec) (ts : List Int) (result : List (Option SongRec)),
      result.length = n →
      ∃ placed : List SongRec, placed.Sublist ss ∧
        (somes (placeGroup n ss ts result)).Perm (placed ++ somes result) ∧
        (placeGroup n ss ts result).length = n := by
  intro ss
  induction ss with
  | nil =>
    intro ts result hlen
    exact ⟨[], List.Sublist.refl _, List.Perm.refl _, hlen⟩
  | cons s rest ih =>
    intro ts result hlen
    cases ts with
    | nil =>
      exact ⟨[], List.nil_sublist _, List.Perm.refl _, hlen⟩
    | cons t ts' =>
      simp only [placeGroup]
      obtain ⟨hlen1, hdisj⟩ := radiusLoop_spec n s t (n + 1) 0 result hlen
      obtain ⟨placed', hsub', hperm', hlen'⟩ :=
        ih ts' (radiusLoop n s t (n + 1) 0 result) hlen1
      rcases hdisj with hno | hyes
      · exact ⟨placed', hsub'.cons s,
          hperm'.trans (List.Perm.append_left placed' hno), hlen'⟩
      · exact ⟨s :: placed', hsub'.cons₂ s,
          hperm'.trans ((List.Perm.append_left placed' hyes).trans
            List.perm_middle), hlen'⟩

theorem somes_replicate (n : Nat) : somes (List.replicate n none) = [] := by
  simp [somes]

theorem pass1_spec (shG : String → List SongRec → List SongRec)
    (shift : String → Nat → Int) (n : Nat) :
    ∀ (groups : List (String × List SongRec)) (result : List (Option SongRec)),
      result.length = n →
      ∃ P : List SongRec,
        P.Sublist (groups.flatMap (fun g => shG g.1 g.2)) ∧
        (somes (groups.foldl
          (fun result g =>
            placeGroup n (shG g.1 g.2) (distPoints shift n g.1 g.2.length) result)
          result)).Perm (P ++ somes result) ∧
        (groups.foldl
          (fun result g =>
            placeGroup n (shG g.1 g.2) (distPoints shift n g.1 g.2.length) result)
          result).length = n := by
  intro groups
  induction groups with
  | nil =>
    intro result hlen
    exact ⟨[], List.Sublist.refl _, List.Perm.refl _, hlen⟩
  | cons g gs ih =>
    intro result hlen
    simp only [List.foldl_cons]
    obtain ⟨placed, hpsub, hpperm, hplen⟩ := placeGroup_spec n (shG g.1 g.2)
      (distPoints shift n g.1 g.2.length) result hlen
    obtain ⟨P', hsub', hperm', hlen'⟩ := ih
      (placeGroup n (shG g.1 g.2) (distPoints shift n g.1 g.2.length) result)
      hplen
    refine ⟨placed ++ P', ?_, ?_, hlen'⟩
    · rw [List.flatMap_cons]
      exact List.Sublist.append hpsub hsub'
    · refine hperm'.trans ((List.Perm.append_left P' hpperm).trans ?_)
      rw [← List.append_assoc]
      exact List.Perm.append_right (somes result) List.perm_append_comm

theorem addToGroups_flat (s : SongRec) :
    ∀ groups : List (String × List SongRec),
      ((addToGroups groups s).flatMap (fun g => g.2)).Perm
        (groups.flatMap (fun g => g.2) ++ [s]) := by
  intro groups
  induction groups with
  | nil => simp [addToGroups]
  | cons g gs ih =>
    rcases g with ⟨ser, l⟩
    by_cases hser : ser = s.series
    · simp only [addToGroups, if_pos hser, List.flatMap_cons]
      rw [List.append_assoc, List.append_assoc]
      exact List.Perm.append_left l List.perm_append_comm
    · simp only [addToGroups, if_neg hser, List.flatMap_cons]
      rw [List.append_assoc]
      exact List.Perm.append_left l ih

theorem groupBySeries_flat :
    ∀ (songs : List SongRec) (gs : List (String × List SongRec)),
      ((songs.foldl addToGroups gs).flatMap (fun g => g.2)).Perm
        (gs.flatMap (fun g => g.2) ++ songs) := by
  intro songs
  induction songs with
  | nil => intro gs; simp
  | cons s rest ih =>
    intro gs
    simp only [List.foldl_cons]
    refine (ih (addToGroups gs s)).trans ?_
    refine (List.Perm.append_right rest (addToGroups_flat s gs)).trans ?_
    rw [List.append_assoc]
    exact List.Perm.append_left _ (List.Perm.refl _)

theorem flatMap_shG_perm (shG : String → List SongRec → List SongRec)
    (hG : ∀ ser l, (shG ser l).Perm l) :
    ∀ groups : List (String × List SongRec),
      (groups.flatMap (fun g => shG g.1 g.2)).Perm
        (groups.flatMap (fun g => g.2)) := by
  intro groups
  induction groups with
  | nil => simp
  | cons g gs ih =>
    simp only [List.flatMap_cons]
    exact (hG g.1 g.2).append ih

theorem filter_flatMap_comm {α : Type} (f : α → List SongRec)
    (p : SongRec → Bool) :
    ∀ l : List α, (l.flatMap f).filter p = l.flatMap (fun a => (f a).filter p) := by
  intro l
  induction l with
  | nil => rfl
  | cons a l ih =>
    simp only [List.flatMap_cons, List.filter_append, ih]

theorem nodup_sublist_filter_perm :
    ∀ {L P : List SongRec}, P.Sublist L → L.Nodup →
      (L.filter (fun s => decide (s ∉ P)) ++ P).Perm L := by
  intro L P hsub
  induction hsub with
  | slnil => intro _; simp
  | cons a hsub ih =>
    rename_i P' L'
    intro hnd
    have hanl : a ∉ L' := by
      simp [List.nodup_cons] at hnd
      exact hnd.1
    have hanp : a ∉ P' := fun hmem => hanl (hsub.subset hmem)
    rw [List.filter_cons_of_pos (by simpa using hanp)]
    exact (ih (List.nodup_cons.mp hnd).2).cons a
  | cons₂ a hsub ih =>
    rename_i P' L'
    intro hnd
    have hanl : a ∉ L' := (List.nodup_cons.mp hnd).1
    rw [List.filter_cons_of_neg (by simp)]
    have hfc : L'.filter (fun s => decide (s ∉ a :: P')) =
        L'.filter (fun s => decide (s ∉ P')) := by
      apply List.filter_congr
      intro s hs
      have hne : s ≠ a := fun hcontra => hanl (hcontra ▸ hs)
      simp [List.mem_cons, hne]
    rw [hfc]
    refine List.Perm.trans ?_ ((ih (List.nodup_cons.mp hnd).2).cons a)
    exact List.perm_middle

theorem findClear_perm (result : List (Option SongRec)) (i : Int) :
    ∀ (rem : List SongRec) (s : SongRec) (rem' : List SongRec),
      findClear result i rem = some (s, rem') → rem.Perm (s :: rem') := by
  intro rem
  induction rem with
  | nil => intro s rem' h; cases h
  | cons a rest ih =>
    intro s rem' h
    unfold findClear at h
    by_cases hadj : adjacentClear result i a.series = true
    · rw [if_pos hadj] at h
      obtain ⟨rfl, rfl⟩ := Prod.mk.injEq .. ▸ (Option.some.inj h)
      exact List.Perm.refl _
    · rw [if_neg hadj] at h
      rcases hrec : findClear result i rest with _ | ⟨t, rest'⟩
      · rw [hrec] at h; cases h
      · rw [hrec] at h
        have := Option.some.inj h
        have ht : t = s := (Prod.mk.injEq .. ▸ this).1
        have hr : a :: rest' = rem' := (Prod.mk.injEq .. ▸ this).2
        subst ht
        subst hr
        exact ((ih t rest' hrec).cons a).trans (List.Perm.swap t a rest')

theorem pass2Go_inv :
    ∀ (is : List Nat) (result : List (Option SongRec)) (rem : List SongRec),
      (∀ i ∈ is, i < result.length) →
      ((somes (pass2Go is result rem).1 ++ (pass2Go is result rem).2).Perm
        (somes result ++ rem) ∧
       (pass2Go is result rem).1.length = result.length) := by
  intro is
  induction is with
  | nil => intro result rem _; exact ⟨List.Perm.refl _, rfl⟩
  | cons i is ih =>
    intro result rem hbound
    have hi : i < result.length := hbound i (List.mem_cons_self i is)
    have hbound' : ∀ j ∈ is, j < result.length :=
      fun j hj => hbound j (List.mem_cons_of_mem i hj)
    simp only [pass2Go]
    by_cases hcond : (result.getD i none).isNone = true ∧ rem ≠ []
    · rw [if_pos hcond]
      rcases hfc : findClear result (i : Int) rem with _ | ⟨s, rem'⟩
      · exact ih result rem hbound'
      · have hnone : result.getD i none = none :=
          Option.isNone_iff_eq_none.mp hcond.1
        have hset := somes_setAt s result i hi hnone
        have hlen : (setAt result i s).length = result.length := length_setAt ..
        have hbound'' : ∀ j ∈ is, j < (setAt result i s).length := by
          rw [hlen]; exact hbound'
        obtain ⟨hperm, hlen'⟩ := ih (setAt result i s) rem' hbound''
        refine ⟨hperm.trans ?_, by rw [hlen', hlen]⟩
        refine (List.Perm.append hset (List.Perm.refl rem')).trans ?_
        have hfp := findClear_perm result (i : Int) rem s rem' hfc
        exact List.Perm.trans List.perm_middle.symm
          (List.Perm.append_left (somes result) hfp.symm)
    · rw [if_neg hcond]
      exact ih result rem hbound'

theorem pass3Go_nil_rem :
    ∀ (is : List Nat) (result : List (Option SongRec)),
      pass3Go is result [] = (result, []) := by
  intro is
  induction is with
  | nil => intro result; rfl
  | cons i is ih => intro result; exact ih result

theorem pass3Go_inv :
    ∀ (is : List Nat) (result : List (Option SongRec)) (rem : List SongRec),
      (∀ i ∈ is, i < result.length) →
      ((somes (pass3Go is result rem).1 ++ (pass3Go is result rem).2).Perm
        (somes result ++ rem) ∧
       (pass3Go is result rem).1.length = result.length) := by
  intro is
  induction is with
  | nil => intro result rem _; exact ⟨List.Perm.refl _, rfl⟩
  | cons i is ih =>
    intro result rem hbound
    have hi : i < result.length := hbound i (List.mem_cons_self i is)
    have hbound' : ∀ j ∈ is, j < result.length :=
      fun j hj => hbound j (List.mem_cons_of_mem i hj)
    cases rem with
    | nil =>
      simp only [pass3Go]
      rw [pass3Go_nil_rem]
      exact ⟨by simp, rfl⟩
    | cons s rem' =>
      simp only [pass3Go]
      by_cases hcond : (result.getD i none).isNone = true
      · rw [if_pos hcond]
        have hnone : result.getD i none = none :=
          Option.isNone_iff_eq_none.mp hcond
        have hset := somes_setAt s result i hi hnone
        have hlen : (setAt result i s).length = result.length := length_setAt ..
        obtain ⟨hperm, hlen'⟩ := ih (setAt result i s) rem'
          (by rw [hlen]; exact hbound')
        refine ⟨hperm.trans ?_, by rw [hlen', hlen]⟩
        refine (List.Perm.append hset (List.Perm.refl rem')).trans ?_
        exact List.perm_middle.symm
      · rw [if_neg hcond]
        exact ih result (s :: rem') hbound'

theorem getD_setAt_mono (result : List (Option SongRec)) (j : Nat) (s : SongRec)
    (i : Nat) (h : (result.getD i none).isSome = true) :
    ((setAt result j s).getD i none).isSome = true := by
  by_cases hij : j = i
  · subst hij
    by_cases hlt : j < result.length
    · rw [getD_setAt_self result j s hlt]; rfl
    · have : (setAt result j s) = result := by
        unfold setAt
        exact List.set_eq_of_length_le (Nat.le_of_not_lt hlt)
      rw [this]; exact h
  · have : (setAt result j s).getD i none = result.getD i none := by
      simp [setAt, List.getD_eq_getElem?_getD, List.getElem?_set_ne hij]
    rw [this]; exact h

theorem pass3Go_some_mono :
    ∀ (is : List Nat) (result : List (Option SongRec)) (rem : List SongRec)
      (i : Nat), (result.getD i none).isSome = true →
      (((pass3Go is result rem).1.getD i none)).isSome = true := by
  intro is
  induction is with
  | nil => intro result rem i h; exact h
  | cons j is ih =>
    intro result rem i h
    cases rem with
    | nil => simp only [pass3Go]; rw [pass3Go_nil_rem]; exact h
    | cons s rem' =>
      simp only [pass3Go]
      by_cases hcond : (result.getD j none).isNone = true
      · rw [if_pos hcond]
        exact ih (setAt result j s) rem' i (getD_setAt_mono result j s i h)
      · rw [if_neg hcond]
        exact ih result (s :: rem') i h

theorem pass3Go_filled :
    ∀ (is : List Nat) (result : List (Option SongRec)) (rem : List SongRec),
      (pass3Go is result rem).2 ≠ [] →
      ∀ i ∈ is, i < result.length →
        (((pass3Go is result rem).1.getD i none)).isSome = true := by
  intro is
  induction is with
  | nil => intro result rem _ i hi; cases hi
  | cons j is ih =>
    intro result rem hne i hi hlt
    cases rem with
    | nil =>
      rw [pass3Go_nil_rem] at hne
      exact absurd rfl hne
    | cons s rem' =>
      simp only [pass3Go] at hne ⊢
      by_cases hcond : (result.getD j none).isNone = true
      · rw [if_pos hcond] at hne ⊢
        rcases List.mem_cons.mp hi with rfl | hmem
        · exact pass3Go_some_mono is (setAt result i s) rem' i
            (by rw [getD_setAt_self result i s hlt]; rfl)
        · exact ih (setAt result j s) rem' hne i hmem (by rw [length_setAt]; exact hlt)
      · rw [if_neg hcond] at hne ⊢
        rcases List.mem_cons.mp hi with rfl | hmem
        · exact pass3Go_some_mono is result (s :: rem') i
            (by cases hx : result.getD i none with
              | none => rw [hx] at hcond; exact absurd rfl hcond
              | some t => rfl)
        · exact ih result (s :: rem') hne i hmem hlt

theorem somes_length_of_all_some :
    ∀ result : List (Option SongRec), (∀ x ∈ result, x.isSome = true) →
      (somes result).length = result.length := by
  intro result
  induction result with
  | nil => intro _; rfl
  | cons a l ih =>
    intro h
    cases a with
    | none => exact absurd (h none (List.mem_cons_self none l)) (by simp)
    | some t =>
      simp only [somes, List.filterMap_cons, id, List.length_cons]
      rw [← somes]
      exact congrArg Nat.succ (ih fun x hx => h x (List.mem_cons_of_mem _ hx))

theorem all_some_of_getD (result : List (Option SongRec))
    (h : ∀ i, i < result.length → (result.getD i none).isSome = true) :
    ∀ x ∈ result, x.isSome = true := by
  intro x hx
  obtain ⟨i, hi, hget⟩ := List.mem_iff_getElem.mp hx
  have := h i hi
  rw [List.getD_eq_getElem?_getD, List.getElem?_eq_getElem hi, hget] at this
  exact this

/-- C3, corrected form.  For any behaviour of the two `random.shuffle`
calls and of the `randint` shifts, and any list of **pairwise-distinct**
song records (as holds in the application, where every record carries a
unique id), `randomize_playlist` returns a permutation of its input:
same length, every input song exactly once.  The distinctness proviso is
needed because the source's second pass tests `song not in result` by
value. -/
theorem claim_C3_amended (shG : String → List SongRec → List SongRec)
    (shR : List SongRec → List SongRec) (shift : String → Nat → Int)
    (songs : List SongRec)
    (hG : ∀ ser l, (shG ser l).Perm l) (hR : ∀ l, (shR l).Perm l)
    (hnd : songs.Nodup) :
    (randomize_playlist shG shR shift songs).Perm songs := by
  simp only [randomize_playlist]
  have hflat : ((groupBySeries songs).flatMap (fun g => shG g.1 g.2)).Perm
      songs := by
    refine (flatMap_shG_perm shG hG (groupBySeries songs)).trans ?_
    simpa [groupBySeries] using groupBySeries_flat songs []
  obtain ⟨P, hPsub, hPperm, hlen1f⟩ := pass1_spec shG shift songs.length
    (groupBySeries songs) (List.replicate songs.length none) (by simp)
  rw [somes_replicate, List.append_nil] at hPperm
  have hlen1 : (pass1 shG shift songs.length (groupBySeries songs)).length =
      songs.length := hlen1f
  have hPperm1 : (somes (pass1 shG shift songs.length
      (groupBySeries songs))).Perm P := hPperm
  have hrem0 : remainingOf shG (groupBySeries songs)
      (pass1 shG shift songs.length (groupBySeries songs)) =
      ((groupBySeries songs).flatMap (fun g => shG g.1 g.2)).filter
        (fun s => decide (some s ∉ pass1 shG shift songs.length
          (groupBySeries songs))) := by
    unfold remainingOf
    exact (filter_flatMap_comm (fun g => shG g.1 g.2) _ (groupBySeries songs)).symm
  have hfiltereq : ((groupBySeries songs).flatMap (fun g => shG g.1 g.2)).filter
      (fun s => decide (some s ∉ pass1 shG shift songs.length
        (groupBySeries songs))) =
      ((groupBySeries songs).flatMap (fun g => shG g.1 g.2)).filter
        (fun s => decide (s ∉ P)) := by
    apply List.filter_congr
    intro s _
    rw [decide_eq_decide]
    exact not_congr ((mem_somes s _).symm.trans hPperm1.mem_iff)
  have hLnd : ((groupBySeries songs).flatMap (fun g => shG g.1 g.2)).Nodup :=
    hflat.symm.nodup hnd
  have hremP : (shR (remainingOf shG (groupBySeries songs)
      (pass1 shG shift songs.length (groupBySeries songs)))).Perm
      (((groupBySeries songs).flatMap (fun g => shG g.1 g.2)).filter
        (fun s => decide (s ∉ P))) := by
    refine (hR _).trans ?_
    rw [hrem0, hfiltereq]
  have hconsv1 : (somes (pass1 shG shift songs.length (groupBySeries songs)) ++
      shR (remainingOf shG (groupBySeries songs)
        (pass1 shG shift songs.length (groupBySeries songs)))).Perm songs :=
    (List.Perm.append hPperm1 hremP).trans
      (List.perm_append_comm.trans
        ((nodup_sublist_filter_perm hPsub hLnd).trans hflat))
  have hb2 : ∀ i ∈ List.range songs.length,
      i < (pass1 shG shift songs.length (groupBySeries songs)).length := by
    intro i hi
    rw [hlen1]
    exact List.mem_range.mp hi
  obtain ⟨h2perm, h2len⟩ := pass2Go_inv (List.range songs.length)
    (pass1 shG shift songs.length (groupBySeries songs))
    (shR (remainingOf shG (groupBySeries songs)
      (pass1 shG shift songs.length (groupBySeries songs)))) hb2
  have hb3 : ∀ i ∈ List.range songs.length,
      i < (pass2Go (List.range songs.length)
        (pass1 shG shift songs.length (groupBySeries songs))
        (shR (remainingOf shG (groupBySeries songs)
          (pass1 shG shift songs.length (groupBySeries songs))))).1.length := by
    intro i hi
    rw [h2len, hlen1]
    exact List.mem_range.mp hi
  obtain ⟨h3perm, h3len⟩ := pass3Go_inv (List.range songs.length)
    (pass2Go (List.range songs.length)
      (pass1 shG shift songs.length (groupBySeries songs))
      (shR (remainingOf shG (groupBySeries songs)
        (pass1 shG shift songs.length (groupBySeries songs))))).1
    (pass2Go (List.range songs.length)
      (pass1 shG shift songs.length (groupBySeries songs))
      (shR (remainingOf shG (groupBySeries songs)
        (pass1 shG shift songs.length (groupBySeries songs))))).2 hb3
  have htotal := h3perm.trans (h2perm.trans hconsv1)
  by_cases hp3 : (pass3Go (List.range songs.length)
      (pass2Go (List.range songs.length)
        (pass1 shG shift songs.length (groupBySeries songs))
        (shR (remainingOf shG (groupBySeries songs)
          (pass1 shG shift songs.length (groupBySeries songs))))).1
      (pass2Go (List.range songs.length)
        (pass1 shG shift songs.length (groupBySeries songs))
        (shR (remainingOf shG (groupBySeries songs)
          (pass1 shG shift songs.length (groupBySeries songs))))).2).2 = []
  · rw [hp3, List.append_nil] at htotal
    exact htotal
  · exfalso
    have hfill := pass3Go_filled (List.range songs.length) _ _ hp3
    have hallsome := all_some_of_getD _
      (fun i hi => hfill i (List.mem_range.mpr (by
        rw [h3len, h2len, hlen1] at hi
        exact hi)) (by
        rw [h3len] at hi
        exact hi))
    have hslen := somes_length_of_all_some _ hallsome
    have hlen3 := htotal.length_eq
    rw [List.length_append, hslen, h3len, h2len, hlen1] at hlen3
    have : (pass3Go (List.range songs.length)
        (pass2Go (List.range songs.length)
          (pass1 shG shift songs.length (groupBySeries songs))
          (shR (remainingOf shG (groupBySeries songs)
            (pass1 shG shift songs.length (groupBySeries songs))))).1
        (pass2Go (List.range songs.length)
          (pass1 shG shift songs.length (groupBySeries songs))
          (shR (remainingOf shG (groupBySeries songs)
            (pass1 shG shift songs.length (groupBySeries songs))))).2).2.length
        = 0 := by omega
    exact hp3 (List.length_eq_zero.mp this)

/-- C3 counterexample.  On a list holding the same record twice (value
equality is what the source tests), the output has length 1: the second
copy is dropped, because `song not in result` filters it out once the
first copy is placed, so the output is not a permutation of the input as
claimed for *every* input list. -/
theorem claim_C3_counterexample :
    (randomize_playlist shGid shRid shiftZero dupSongs).length = 1 ∧
    dupSongs.length = 2 ∧
    ¬ (randomize_playlist shGid shRid shiftZero dupSongs).Perm dupSongs := by
  refine ⟨by decide, by decide, by decide⟩

/-- Witness for C3's corrected theorem: identity shuffle oracles, zero
shifts, and the distinct two-song state. -/
theorem claim_C3_amended_witness :
    (∀ ser l, (shGid ser l).Perm l) ∧ (∀ l, (shRid l).Perm l) ∧
    songsAB.Nodup ∧
    (randomize_playlist shGid shRid shiftZero songsAB).Perm songsAB :=
  ⟨fun _ l => List.Perm.refl l, fun l => List.Perm.refl l, by decide,
    claim_C3_amended shGid shRid shiftZero songsAB (fun _ l => List.Perm.refl l)
      (fun l => List.Perm.refl l) (by decide)⟩

end PlaylistManager
